import Mathlib

/-!
# Verification of the d3figurer render orchestrator

Shallow embedding of the core of `d3figurer` (src/server.js, src/client.js,
src/standalone.js): the serial job queue, the layout analyzer that runs in the
page (`/check`), the request handling pipeline, the client batch renderer with
hang detection, and the PDF date normalizer.  Machine arithmetic of the source
is JavaScript doubles used on DOM geometry; we model geometry with `ℚ` and
durations/counters with `ℕ`.
-/

set_option maxHeartbeats 1000000

namespace D3Figurer

/-! ## Serial queue (server.js `makeQueue`, lines 41–48)

```js
function makeQueue() {
  let tail = Promise.resolve();
  return fn => {
    const next = tail.then(fn);
    tail = next.catch(() => {}); // recover so subsequent tasks still run
    return next;                 // caller receives the real rejection
  };
}
```

We embed settled promises as `Except ε` values.  A task is a state
transformer `σ → σ × Except ε α`: running it performs its side effect on the
shared state `σ` and settles with a result.  `pthen` is `tail.then(fn)` (the
task does not run when the previous internal promise is rejected) and
`pcatch` is `next.catch(() => {})` (the internal continuation always
resolves).  The queue is the fold of `enqueueStep` over the task list, which
is the denotation of enqueueing every task without awaiting individually:
each task body starts only after the previous internal promise settles, so
tasks run one at a time in list order. -/

/-- Embeds `tail.then(fn)`: if `tail` is fulfilled the task runs on the current
shared state; if `tail` is rejected the task does not run and the rejection
propagates. -/
def pthen {σ ε α : Type} (tail : Except ε Unit) (fn : σ → σ × Except ε α)
    (s : σ) : σ × Except ε α :=
  match tail with
  | .ok _ => fn s
  | .error e => (s, .error e)

/-- Embeds `next.catch` with a unit handler: the internal continuation always fulfills. -/
def pcatch {ε α : Type} : Except ε α → Except ε Unit
  | .ok _ => .ok ()
  | .error _ => .ok ()

/-- The queue state: the shared mutable state `σ` touched by task side
effects, and the settled value of the internal `tail` promise. -/
structure QueueState (σ ε : Type) where
  shared : σ
  tail : Except ε Unit

/-- One `enqueue(fn)` call: build `next = tail.then(fn)`, set
`tail = next.catch(() => {})`, hand `next` back to the caller. -/
def enqueueStep {σ ε α : Type} (st : QueueState σ ε) (fn : σ → σ × Except ε α) :
    QueueState σ ε × Except ε α :=
  let next := pthen st.tail fn st.shared
  (⟨next.1, pcatch next.2⟩, next.2)

/-- Enqueue a whole list of tasks (without awaiting individually), collecting
the promise each caller receives. -/
def runQueueFrom {σ ε α : Type} (st : QueueState σ ε) :
    List (σ → σ × Except ε α) → QueueState σ ε × List (Except ε α)
  | [] => (st, [])
  | fn :: fns =>
    let step := enqueueStep st fn
    let rest := runQueueFrom step.1 fns
    (rest.1, step.2 :: rest.2)

/-- The queue run from its initial state (`tail = Promise.resolve()`). -/
def runQueue {σ ε α : Type} (tasks : List (σ → σ × Except ε α)) (s0 : σ) :
    QueueState σ ε × List (Except ε α) :=
  runQueueFrom ⟨s0, .ok ()⟩ tasks

/-- Reference executor: run every task unconditionally, one at a time, in
list order, threading the shared state. -/
def execAll {σ ε α : Type} : List (σ → σ × Except ε α) → σ → σ × List (Except ε α)
  | [], s => (s, [])
  | fn :: fns, s =>
    let r := fn s
    let rest := execAll fns r.1
    (rest.1, r.2 :: rest.2)

theorem pcatch_ok {ε α : Type} (r : Except ε α) : pcatch r = .ok () := by
  cases r <;> rfl

/-- Helper: from any state whose internal tail is fulfilled, the queue
behaves exactly like the run-everything sequential executor. -/
theorem runQueueFrom_eq_execAll {σ ε α : Type}
    (tasks : List (σ → σ × Except ε α)) (s : σ) :
    runQueueFrom ⟨s, .ok ()⟩ tasks =
      ((⟨(execAll tasks s).1, .ok ()⟩ : QueueState σ ε), (execAll tasks s).2) := by
  induction tasks generalizing s with
  | nil => rfl
  | cons fn fns ih =>
    simp only [runQueueFrom, execAll, enqueueStep, pthen, pcatch_ok]
    rw [ih]

theorem runQueue_eq_execAll {σ ε α : Type}
    (tasks : List (σ → σ × Except ε α)) (s0 : σ) :
    runQueue tasks s0 =
      ((⟨(execAll tasks s0).1, .ok ()⟩ : QueueState σ ε), (execAll tasks s0).2) :=
  runQueueFrom_eq_execAll tasks s0

theorem execAll_length {σ ε α : Type}
    (tasks : List (σ → σ × Except ε α)) (s : σ) :
    (execAll tasks s).2.length = tasks.length := by
  induction tasks generalizing s with
  | nil => rfl
  | cons fn fns ih => simp [execAll, ih]

/-- The result list of `execAll` at index `k` is task `k` run on the state
produced by the first `k` tasks. -/
theorem execAll_getElem {σ ε α : Type}
    (tasks : List (σ → σ × Except ε α)) (s : σ) (k : Nat) (hk : k < tasks.length) :
    (execAll tasks s).2[k]? =
      some (tasks[k] (execAll (tasks.take k) s).1).2 := by
  induction tasks generalizing s k with
  | nil => exact absurd hk (by simp)
  | cons fn fns ih =>
    cases k with
    | zero => simp [execAll]
    | succ k =>
      simp only [execAll, List.getElem?_cons_succ, List.getElem_cons_succ,
        List.take_succ_cons]
      exact ih (fn s).1 k (Nat.lt_of_succ_lt_succ hk)

/-- Tasks that only log their own index into the shared list. -/
def logTasks (ε : Type) (n : Nat) : List (List Nat → List Nat × Except ε Unit) :=
  (List.range n).map (fun i => fun s => (s ++ [i], .ok ()))

theorem execAll_logTasks_aux (ε : Type) (l : List Nat) (acc : List Nat) :
    (execAll (l.map (fun i => fun s => (s ++ [i], (.ok () : Except ε Unit)))) acc).1 =
      acc ++ l := by
  induction l generalizing acc with
  | nil => simp [execAll]
  | cons i l ih => simp [execAll, ih]

/-! ## Layout analyzer (server.js `/check` page script, lines 271–337)

Geometry from `getBoundingClientRect` is modelled with `ℚ`.  A text element
carries the six numbers the script reads off the rect (`left`, `top`,
`width`, `height`, `right`, `bottom`), its raw `textContent` and the
`data-skip-check` opt-out attribute. -/

/-- JavaScript `Math.round`: round half toward positive infinity. -/
def jsRound (q : ℚ) : ℤ := ⌊q + 1 / 2⌋

/-- ASCII core of the JavaScript `\s` character class (used by `trim` and
`replace(/\s+/g, ' ')`). -/
def isJsWs (c : Char) : Bool :=
  c == ' ' || c == '\t' || c == '\n' || c == '\r' || c == '\x0b' || c == '\x0c'

/-- Embeds `String.prototype.trim`. -/
def jsTrim (s : List Char) : List Char :=
  ((s.dropWhile isJsWs).reverse.dropWhile isJsWs).reverse

/-- Embeds the whitespace collapse of the check script: collapse every whitespace run to one space.  The
flag records whether the previous character was part of a whitespace run. -/
def collapseWsAux : Bool → List Char → List Char
  | _, [] => []
  | prevWs, c :: cs =>
    if isJsWs c then
      if prevWs then collapseWsAux true cs else ' ' :: collapseWsAux true cs
    else c :: collapseWsAux false cs

def collapseWs (s : List Char) : List Char := collapseWsAux false s

/-- Embeds `el.textContent.trim().replace(...).slice(0, 60)`. -/
def procText (s : List Char) : List Char := (collapseWs (jsTrim s)).take 60

/-- A raw `svg text` DOM element as the page script sees it. -/
structure SvgTextEl where
  textContent : List Char
  x : ℚ
  y : ℚ
  w : ℚ
  h : ℚ
  r : ℚ
  b : ℚ
  skipAttr : Bool
deriving DecidableEq

/-- The record the script builds per text element (lines 273–278). -/
structure TextNode where
  text : List Char
  x : ℚ
  y : ℚ
  w : ℚ
  h : ℚ
  r : ℚ
  b : ℚ
  skip : Bool
deriving DecidableEq

def toNode (el : SvgTextEl) : TextNode :=
  { text := procText el.textContent, x := el.x, y := el.y, w := el.w, h := el.h,
    r := el.r, b := el.b, skip := el.skipAttr }

/-- The filter `t.text && t.w > 1 && t.h > 1` (line 279). -/
def keep (t : TextNode) : Bool :=
  !t.text.isEmpty && decide (1 < t.w) && decide (1 < t.h)

inductive Edge where
  | left
  | right
  | top
  | bottom
deriving DecidableEq

structure OverlapFinding where
  a : List Char
  b : List Char
  overlapX : ℤ
  overlapY : ℤ
  overlapPx : ℤ
  aPos : ℤ × ℤ
  bPos : ℤ × ℤ
deriving DecidableEq

structure TooCloseFinding where
  a : List Char
  b : List Char
  gapX : ℤ
  gapY : ℤ
  gapPx : ℤ
  aPos : ℤ × ℤ
  bPos : ℤ × ℤ
deriving DecidableEq

structure ClippedFinding where
  text : List Char
  edge : Edge
  overflowPx : ℤ
deriving DecidableEq

structure BoxOverflowFinding where
  text : List Char
  edge : Edge
  overflowPx : ℤ
  textPos : ℤ × ℤ
deriving DecidableEq

def posOf (t : TextNode) : ℤ × ℤ := (jsRound t.x, jsRound t.y)

/-- Horizontal overlap `ox = Math.min(a.r, b.r) - Math.max(a.x, b.x)`. -/
def oxOf (a b : TextNode) : ℚ := min a.r b.r - max a.x b.x

/-- Vertical overlap `oy = Math.min(a.b, b.b) - Math.max(a.y, b.y)`. -/
def oyOf (a b : TextNode) : ℚ := min a.b b.b - max a.y b.y

/-- Pairwise classification, the body of the `i`/`j` loop (lines 285–302):
overlap when both axis overlaps exceed 2, otherwise too-close when both gaps
are under `MIN_GAP = 3`, otherwise nothing. -/
def classifyPair (a b : TextNode) : Option (OverlapFinding ⊕ TooCloseFinding) :=
  let ox := oxOf a b
  let oy := oyOf a b
  if 2 < ox ∧ 2 < oy then
    some (.inl { a := a.text, b := b.text, overlapX := jsRound ox,
                 overlapY := jsRound oy, overlapPx := jsRound (ox * oy),
                 aPos := posOf a, bPos := posOf b })
  else
    let gx := max 0 (-ox)
    let gy := max 0 (-oy)
    if gx < 3 ∧ gy < 3 then
      some (.inr { a := a.text, b := b.text, gapX := jsRound gx,
                   gapY := jsRound gy, gapPx := jsRound (max gx gy),
                   aPos := posOf a, bPos := posOf b })
    else none

/-- The unordered pairs visited by `for i; for j > i`, in visit order. -/
def orderedPairs {α : Type} : List α → List (α × α)
  | [] => []
  | x :: xs => xs.map (fun y => (x, y)) ++ orderedPairs xs

/-- The canvas-clipping filter
`t.r > W + 2 || t.b > H + 2 || t.x < -2 || t.y < -2` (line 306). -/
def clipPred (W H : ℚ) (t : TextNode) : Bool :=
  decide (W + 2 < t.r) || decide (H + 2 < t.b) ||
    decide (t.x < -2) || decide (t.y < -2)

/-- Edge selection `t.x < -2 ? 'left' : t.r > W + 2 ? 'right' :
t.y < -2 ? 'top' : 'bottom'` (line 309). -/
def clipEdge (W _H : ℚ) (t : TextNode) : Edge :=
  if t.x < -2 then .left
  else if W + 2 < t.r then .right
  else if t.y < -2 then .top
  else .bottom

/-- Embeds `Math.max(t.r - W, t.b - H, -t.x, -t.y)` (line 310). -/
def clipMaxViol (W H : ℚ) (t : TextNode) : ℚ :=
  max (max (max (t.r - W) (t.b - H)) (-t.x)) (-t.y)

def mkClipped (W H : ℚ) (t : TextNode) : ClippedFinding :=
  { text := t.text, edge := clipEdge W H t,
    overflowPx := jsRound (clipMaxViol W H t) }

/-- A raw `svg rect` DOM element. -/
structure SvgRectEl where
  x : ℚ
  y : ℚ
  w : ℚ
  h : ℚ
  r : ℚ
  b : ℚ
  fill : Option (List Char)
  skipAttr : Bool
deriving DecidableEq

structure RectBox where
  x : ℚ
  y : ℚ
  r : ℚ
  b : ℚ
  area : ℚ
deriving DecidableEq

/-- Container collection (lines 313–319): drop rects under 20×20, opted-out
rects, and rects with no fill or `fill="none"`. -/
def toBox (el : SvgRectEl) : Option RectBox :=
  if el.w < 20 ∨ el.h < 20 then none
  else if el.skipAttr then none
  else
    match el.fill with
    | none => none
    | some f =>
      if f = ("none").data then none
      else some { x := el.x, y := el.y, r := el.r, b := el.b, area := el.w * el.h }

/-- Embeds `containers.reduce` picking the first minimal area (line 325). -/
def pickSmallest : RectBox → List RectBox → RectBox
  | a, [] => a
  | a, bx :: bs => pickSmallest (if a.area ≤ bx.area then a else bx) bs

def OVERFLOW_TOL : ℚ := 3

/-- Embeds the container filter of the check script
with `(cx, cy)` the center of the text box (lines 322–323). -/
def containersOf (boxes : List RectBox) (t : TextNode) : List RectBox :=
  let cx := t.x + t.w / 2
  let cy := t.y + t.h / 2
  boxes.filter fun bx =>
    decide (bx.x ≤ cx) && decide (cx ≤ bx.r) && decide (bx.y ≤ cy) && decide (cy ≤ bx.b)

/-- Embeds `Math.max(oR, oL, oB, oT)` for a text box against its container. -/
def maxExcess (box : RectBox) (t : TextNode) : ℚ :=
  max (max (max (t.r - box.r) (box.x - t.x)) (t.b - box.b)) (box.y - t.y)

/-- The edge picked on line 329:
`oR > TOL ? 'right' : oL > TOL ? 'left' : oB > TOL ? 'bottom' : 'top'`. -/
def overflowEdge (box : RectBox) (t : TextNode) : Edge :=
  if OVERFLOW_TOL < t.r - box.r then .right
  else if OVERFLOW_TOL < box.x - t.x then .left
  else if OVERFLOW_TOL < t.b - box.b then .bottom
  else .top

/-- The body of the container-overflow loop (lines 321–334). -/
def boxOverflowFor (boxes : List RectBox) (t : TextNode) : Option BoxOverflowFinding :=
  match containersOf boxes t with
  | [] => none
  | c :: cs =>
    let box := pickSmallest c cs
    if OVERFLOW_TOL < maxExcess box t then
      some { text := t.text, edge := overflowEdge box t,
             overflowPx := jsRound (maxExcess box t), textPos := posOf t }
    else none

structure CheckResult where
  textCount : Nat
  checkedCount : Nat
  overlaps : List OverlapFinding
  tooClose : List TooCloseFinding
  clipped : List ClippedFinding
  boxOverflows : List BoxOverflowFinding
deriving DecidableEq

/-- The analysis over the element records that survived the
`t.text && t.w > 1 && t.h > 1` filter. -/
def analyzeNodes (allNodes : List TextNode) (rectEls : List SvgRectEl) (W H : ℚ) :
    CheckResult :=
  let nodes := allNodes.filter fun t => !t.skip
  let prs := orderedPairs nodes
  let overlaps := prs.filterMap fun p =>
    match classifyPair p.1 p.2 with
    | some (.inl o) => some o
    | _ => none
  let tooClose := prs.filterMap fun p =>
    match classifyPair p.1 p.2 with
    | some (.inr o) => some o
    | _ => none
  let clipped := (allNodes.filter (clipPred W H)).map (mkClipped W H)
  let boxes := rectEls.filterMap toBox
  let boxOverflows := allNodes.filterMap (boxOverflowFor boxes)
  { textCount := allNodes.length, checkedCount := nodes.length,
    overlaps := overlaps, tooClose := tooClose, clipped := clipped,
    boxOverflows := boxOverflows }

/-- The whole `page.evaluate` analysis (lines 271–336).  `W`, `H` are the
canvas (viewport) dimensions. -/
def analyze (textEls : List SvgTextEl) (rectEls : List SvgRectEl) (W H : ℚ) :
    CheckResult :=
  analyzeNodes ((textEls.map toNode).filter keep) rectEls W H

/-! ## Figure lookup and page prep (server.js `_prepPage`, lines 115–133)

`_prepPage` first rejects unknown figure ids with a `status: 404` error, then
invokes the figure module and parses the declared width/height out of the
returned document with `/width="(\d+)"/` and `/height="(\d+)"/`, falling back
to `900`/`600` when a regex does not match.  The page viewport is then set to
exactly those dimensions. -/

def digitsVal (ds : List Char) : Nat :=
  ds.foldl (fun n c => 10 * n + (c.toNat - 48)) 0

/-- Try `lit` followed by one or more digits followed by `"` at the head of
`s`; this is the anchored form of `/width="(\d+)"/` for `lit = width="`. -/
def matchNumAttr (lit : List Char) (s : List Char) : Option Nat :=
  if lit.isPrefixOf s then
    let t := s.drop lit.length
    let ds := t.takeWhile Char.isDigit
    if ds.isEmpty then none
    else
      match t.drop ds.length with
      | '"' :: _ => some (digitsVal ds)
      | _ => none
  else none

/-- First match of the attribute regex anywhere in the document. -/
def findNumAttr (lit : List Char) : List Char → Option Nat
  | [] => none
  | c :: cs =>
    match matchNumAttr lit (c :: cs) with
    | some n => some n
    | none => findNumAttr lit cs

def widthLit : List Char := ("width=\"").data

def heightLit : List Char := ("height=\"").data

/-- Embeds the width parse with its 900 fallback (line 127). -/
def svgWidthOf (svgHtml : List Char) : Nat := (findNumAttr widthLit svgHtml).getD 900

/-- Embeds the height parse with its 600 fallback (line 128). -/
def svgHeightOf (svgHtml : List Char) : Nat := (findNumAttr heightLit svgHtml).getD 600

inductive SrvErr where
  | notFound (figure : List Char)
deriving DecidableEq

/-- Embeds `err.status` as used by the queue-boundary catch (line 213). -/
def SrvErr.status : SrvErr → Nat
  | .notFound _ => 404

structure PrepResult where
  svgW : Nat
  svgH : Nat
  svgHtml : List Char
deriving DecidableEq

/-- The figure module cache: figure id to the document its module produces. -/
def FigCache : Type := List (List Char × List Char)

/-- Embeds `_prepPage` (reload elided — it only re-reads the module): unknown ids
fail with a 404-status error before anything touches the page; otherwise the
module is invoked and the viewport sized to the parsed (or fallback)
dimensions. -/
def prepPage (cache : FigCache) (figure : List Char) : Except SrvErr PrepResult :=
  match (cache.find? fun p => p.1 == figure).map (fun p => p.2) with
  | none => .error (.notFound figure)
  | some svgHtml =>
    .ok { svgW := svgWidthOf svgHtml, svgH := svgHeightOf svgHtml, svgHtml := svgHtml }

/-- Outcome of one `POST /render` (or `/check`) request.  `enqueued` lists
the figure ids of the jobs that `withBody` pushed into the serial queue while
handling the request; `workerTouched` records whether the handler reached any
page operation (viewport/content/capture). -/
structure RequestOutcome where
  status : Nat
  enqueued : List (List Char)
  workerTouched : Bool
deriving DecidableEq

/-- Embeds `withBody` (lines 203–218) plus the `/render`–`/check` handler skeleton:
a body that fails to parse is answered 400 and nothing is enqueued; otherwise
the handler closure is enqueued unconditionally, and when the queue runs it,
`_prepPage` either fails the job (the catch answers `err.status || 500`) or
the job proceeds to the page operations and answers 200. -/
def handleFigureRequest (cache : FigCache) (body : Option (List Char)) :
    RequestOutcome :=
  match body with
  | none => { status := 400, enqueued := [], workerTouched := false }
  | some figure =>
    match prepPage cache figure with
    | .error e => { status := e.status, enqueued := [figure], workerTouched := false }
    | .ok _ => { status := 200, enqueued := [figure], workerTouched := true }

/-! ## Client batch rendering with hang detection (client.js, lines 68–190)

`_requestTimed` races the HTTP request against a `setTimeout` of
`hangHardTimeout` milliseconds.  We model the server side of one job as
either settling after a known number of milliseconds with an HTTP status (and
optional error body), or hanging forever; the race then settles at the
earlier of the two.   `renderBatch` folds its try/catch body over the job
list; a batch stuck on a never-settling request with no timer (`hard = 0`)
is `none`. -/

inductive ServerBehavior where
  | settles (afterMs : Nat) (status : Nat) (errBody : Option String)
  | hangs
deriving DecidableEq

/-- Embeds the timeout error message of client.js line 74. -/
def timeoutMsg (hard : Nat) : String :=
  "render timed out after " ++ toString (hard / 1000) ++ "s"

/-- Embeds `Promise.race` of the request against a timer at `hard` ms (no timer when
`hard` is falsy, client.js line 70): elapsed time and settled outcome; `none`
when nothing ever settles. -/
def requestTimed (hard : Nat) :
    ServerBehavior → Option (Nat × Except String (Nat × Option String))
  | .settles d st e =>
    if hard = 0 then some (d, .ok (st, e))
    else if d < hard then some (d, .ok (st, e))
    else some (hard, .error (timeoutMsg hard))
  | .hangs =>
    if hard = 0 then none else some (hard, .error (timeoutMsg hard))

def infixCheck (pat : List Char) : List Char → Bool
  | [] => pat.isEmpty
  | c :: cs => pat.isPrefixOf (c :: cs) || infixCheck pat cs

/-- Embeds the timeout test on the error message. -/
def includesTimedOut (msg : String) : Bool := infixCheck ("timed out").data msg.data

structure BatchState where
  hangLog : List (String × Nat × String)
  restarts : Nat
  errors : List (String × String)
deriving DecidableEq

/-- The catch block of `renderBatch` (lines 168–179): on a hard timeout
(elapsed within 100 ms of the hard threshold, or a timeout error message) a
hang record is appended and a server restart attempted; otherwise a slow
failure is logged unless the success path already logged this job; the error
always joins the error list. -/
def catchBlock (thresh hard : Nat) (st : BatchState) (fig : String)
    (elapsed : Nat) (msg : String) (hung : Bool) : BatchState :=
  let st1 :=
    if hard - 100 ≤ elapsed ∨ includesTimedOut msg then
      { st with hangLog := st.hangLog ++ [(fig, elapsed, msg)],
                restarts := st.restarts + 1 }
    else if thresh < elapsed ∧ hung = false then
      { st with hangLog := st.hangLog ++ [(fig, elapsed, msg)] }
    else st
  { st1 with errors := st1.errors ++ [(fig, msg)] }

/-- The try block of `renderBatch` for one job (lines 152–179). -/
def runJob (thresh hard : Nat) (st : BatchState) (fig : String)
    (beh : ServerBehavior) : Option BatchState :=
  match requestTimed hard beh with
  | none => none
  | some (elapsed, .ok (status, errBody)) =>
    let hung := decide (thresh < elapsed)
    let st1 :=
      if thresh < elapsed then
        { st with hangLog := st.hangLog ++ [(fig, elapsed, "slow render (completed)")] }
      else st
    if status ≠ 200 then
      some (catchBlock thresh hard st1 fig elapsed
        (errBody.getD ("HTTP " ++ toString status)) hung)
    else some st1
  | some (elapsed, .error msg) =>
    some (catchBlock thresh hard st fig elapsed msg false)

def runBatchAux (thresh hard : Nat) (st : BatchState) :
    List (String × ServerBehavior) → Option BatchState
  | [] => some st
  | (fig, beh) :: rest =>
    match runJob thresh hard st fig beh with
    | none => none
    | some st1 => runBatchAux thresh hard st1 rest

/-- Embeds `renderBatch`: run every job sequentially and return
`{ ok, total, errors }` (line 189: `ok = figures.length - errors.length`). -/
def runBatch (thresh hard : Nat) (jobs : List (String × ServerBehavior)) :
    Option (BatchState × Nat × Nat) :=
  (runBatchAux thresh hard ⟨[], 0, []⟩ jobs).map fun st =>
    (st, jobs.length - st.errors.length, jobs.length)

/-- Whether a job ends in the catch block. -/
def jobFails (hard : Nat) : ServerBehavior → Bool
  | .settles d st _ => (decide (hard ≠ 0) && decide (hard ≤ d)) || decide (st ≠ 200)
  | .hangs => true

/-- The message the catch block receives for a failing job. -/
def jobErrMsg (hard : Nat) : ServerBehavior → String
  | .settles d st e =>
    if hard ≠ 0 ∧ hard ≤ d then timeoutMsg hard
    else e.getD ("HTTP " ++ toString st)
  | .hangs => timeoutMsg hard

/-! ## PDF date normalisation (server.js `normalizePdfDates`, lines 20–36)

The function reads the PDF as a byte string and applies five global regex
replacements in order:

```js
str.replace(/\/CreationDate\s*\([^)]*\)/g, `/CreationDate ${FIXED_PDF}`)
   .replace(/\/ModDate\s*\([^)]*\)/g,      `/ModDate ${FIXED_PDF}`)
   .replace(/<xmp:CreateDate>[^<]*<\/xmp:CreateDate>/g,   …FIXED_ISO…)
   .replace(/<xmp:ModifyDate>[^<]*<\/xmp:ModifyDate>/g,   …FIXED_ISO…)
   .replace(/<xmp:MetadataDate>[^<]*<\/xmp:MetadataDate>/g, …FIXED_ISO…)
```

Each pattern is backtracking-free: `\s*` is followed by `(` which is not
whitespace, `[^)]*` by `)`, and `[^<]*` by `<`, so matching is the
deterministic scan embedded below; a global replace is the left-to-right
scan that restarts after each replacement. -/

def litCre : List Char := ("/CreationDate").data

def litMod : List Char := ("/ModDate").data

def openCre : List Char := ("<xmp:CreateDate>").data

def closeCre : List Char := ("</xmp:CreateDate>").data

def openModX : List Char := ("<xmp:ModifyDate>").data

def closeModX : List Char := ("</xmp:ModifyDate>").data

def openMeta : List Char := ("<xmp:MetadataDate>").data

def closeMeta : List Char := ("</xmp:MetadataDate>").data

def FIXED_PDF : List Char := ("(D:20000101000000Z)").data

def FIXED_ISO : List Char := ("2000-01-01T00:00:00Z").data

/-- Anchored match of ``lit\s*\([^)]*\)`` at the head of `s`; returns the
remainder after the match. -/
def matchParenField (lit : List Char) (s : List Char) : Option (List Char) :=
  if lit.isPrefixOf s then
    if ((s.drop lit.length).dropWhile isJsWs).head? = some '(' then
      if (((s.drop lit.length).dropWhile isJsWs).tail.dropWhile
          (fun c2 => c2 != ')')).head? = some ')' then
        some (((s.drop lit.length).dropWhile isJsWs).tail.dropWhile
          (fun c2 => c2 != ')')).tail
      else none
    else none
  else none

/-- Anchored match of ``opn[^<]*cls`` at the head of `s`. -/
def matchTagField (opn cls : List Char) (s : List Char) : Option (List Char) :=
  if opn.isPrefixOf s then
    if cls.isPrefixOf ((s.drop opn.length).dropWhile (fun c => c != '<')) then
      some (((s.drop opn.length).dropWhile (fun c => c != '<')).drop cls.length)
    else none
  else none

/-- One step of a global replace: left-to-right scan, at a match emit the
replacement and continue after the matched region.  The fuel only bounds the
recursion; a budget of `s.length` is exact since every step consumes at
least one character. -/
def replacePass (m : List Char → Option (List Char)) (repl : List Char) :
    Nat → List Char → List Char
  | 0, s => s
  | _ + 1, [] => []
  | fuel + 1, c :: cs =>
    match m (c :: cs) with
    | some r => repl ++ replacePass m repl fuel r
    | none => c :: replacePass m repl fuel cs

/-- Embeds `String.prototype.replace` with a global pattern. -/
def replaceAll (m : List Char → Option (List Char)) (repl : List Char)
    (s : List Char) : List Char :=
  replacePass m repl s.length s

/-- Embeds `normalizePdfDates` on the file contents: the five replacements in
source order. -/
def normalizePdfDates (s : List Char) : List Char :=
  replaceAll (matchTagField openMeta closeMeta) (openMeta ++ FIXED_ISO ++ closeMeta)
    (replaceAll (matchTagField openModX closeModX) (openModX ++ FIXED_ISO ++ closeModX)
      (replaceAll (matchTagField openCre closeCre) (openCre ++ FIXED_ISO ++ closeCre)
        (replaceAll (matchParenField litMod) (litMod ++ (" ").data ++ FIXED_PDF)
          (replaceAll (matchParenField litCre) (litCre ++ (" ").data ++ FIXED_PDF) s))))

/-- A structured PDF-like document: plain bytes interleaved with the five
kinds of date fields the normalizer rewrites. -/
inductive PdfTok where
  | plain (cs : List Char)
  | fCre (ws v : List Char)
  | fMod (ws v : List Char)
  | xCre (v : List Char)
  | xMod (v : List Char)
  | xMeta (v : List Char)
deriving DecidableEq

def renderTok : PdfTok → List Char
  | .plain cs => cs
  | .fCre ws v => litCre ++ ws ++ '(' :: (v ++ [')'])
  | .fMod ws v => litMod ++ ws ++ '(' :: (v ++ [')'])
  | .xCre v => openCre ++ v ++ closeCre
  | .xMod v => openModX ++ v ++ closeModX
  | .xMeta v => openMeta ++ v ++ closeMeta

def render : List PdfTok → List Char
  | [] => []
  | t :: ts => renderTok t ++ render ts

/-- No open-field literal occurs inside this chunk of bytes. -/
def noLits (v : List Char) : Bool :=
  !infixCheck litCre v && !infixCheck litMod v && !infixCheck openCre v
    && !infixCheck openModX v && !infixCheck openMeta v

def wfTok : PdfTok → Bool
  | .plain cs => !cs.isEmpty && noLits cs
  | .fCre ws v => ws.all isJsWs && v.all (fun c => c != ')') && noLits v
  | .fMod ws v => ws.all isJsWs && v.all (fun c => c != ')') && noLits v
  | .xCre v => v.all (fun c => c != '<') && noLits v
  | .xMod v => v.all (fun c => c != '<') && noLits v
  | .xMeta v => v.all (fun c => c != '<') && noLits v

def isPlain : PdfTok → Bool
  | .plain _ => true
  | _ => false

/-- Well-formed documents: every token is well formed and plain chunks are
maximal (no two adjacent plain tokens). -/
def wfDoc : List PdfTok → Bool
  | [] => true
  | [t] => wfTok t
  | t :: t2 :: ts => wfTok t && !(isPlain t && isPlain t2) && wfDoc (t2 :: ts)

/-- The sentinel value every date field is rewritten to. -/
def normTok : PdfTok → PdfTok
  | .plain cs => .plain cs
  | .fCre _ _ => .fCre [' '] (("D:20000101000000Z").data)
  | .fMod _ _ => .fMod [' '] (("D:20000101000000Z").data)
  | .xCre _ => .xCre FIXED_ISO
  | .xMod _ => .xMod FIXED_ISO
  | .xMeta _ => .xMeta FIXED_ISO

theorem replacePass_nil (m : List Char → Option (List Char)) (repl : List Char)
    (fuel : Nat) : replacePass m repl fuel [] = [] := by
  cases fuel <;> rfl

theorem replacePass_match (m : List Char → Option (List Char)) (repl : List Char)
    (fuel : Nat) (c : Char) (cs r : List Char) (hm : m (c :: cs) = some r) :
    replacePass m repl (fuel + 1) (c :: cs) = repl ++ replacePass m repl fuel r := by
  simp only [replacePass, hm]

theorem replacePass_step (m : List Char → Option (List Char)) (repl : List Char)
    (fuel : Nat) (c : Char) (cs : List Char) (hm : m (c :: cs) = none) :
    replacePass m repl (fuel + 1) (c :: cs) = c :: replacePass m repl fuel cs := by
  simp only [replacePass, hm]

/-- Scanning walks over a region at whose positions the matcher fails. -/
theorem replacePass_skip (m : List Char → Option (List Char)) (repl : List Char)
    (u rest : List Char) (fuel : Nat)
    (hno : ∀ i, i < u.length → m (u.drop i ++ rest) = none) :
    replacePass m repl (u.length + fuel) (u ++ rest) =
      u ++ replacePass m repl fuel rest := by
  induction u with
  | nil => simp
  | cons c cs ih =>
    have h0 := hno 0 (Nat.succ_pos _)
    simp only [List.drop_zero, List.cons_append] at h0
    have : (c :: cs).length + fuel = (cs.length + fuel) + 1 := by
      simp [Nat.add_assoc, Nat.add_comm 1 fuel]
    rw [List.cons_append, this,
      replacePass_step m repl (cs.length + fuel) c (cs ++ rest) h0]
    rw [ih fun i hi => by
      have := hno (i + 1) (Nat.succ_lt_succ hi)
      simpa using this]
    rfl

/-- Fuel does not matter as long as it covers the input, provided every
match consumes at least one character. -/
theorem replacePass_fuel (m : List Char → Option (List Char)) (repl : List Char)
    (hm : ∀ s r, m s = some r → r.length < s.length) :
    ∀ fuel fuel2 s, s.length ≤ fuel → s.length ≤ fuel2 →
      replacePass m repl fuel s = replacePass m repl fuel2 s := by
  intro fuel
  induction fuel with
  | zero =>
    intro fuel2 s hs _
    rw [Nat.le_zero] at hs
    rw [List.length_eq_zero] at hs
    subst hs
    rw [replacePass_nil, replacePass_nil]
  | succ fuel ih =>
    intro fuel2 s hs hs2
    cases s with
    | nil => rw [replacePass_nil, replacePass_nil]
    | cons c cs =>
      cases fuel2 with
      | zero => exact absurd hs2 (by simp)
      | succ fuel2 =>
        cases hmc : m (c :: cs) with
        | some r =>
          rw [replacePass_match m repl fuel c cs r hmc,
            replacePass_match m repl fuel2 c cs r hmc]
          have hr := hm _ _ hmc
          simp only [List.length_cons] at hr hs hs2
          rw [ih fuel2 r (by omega) (by omega)]
        | none =>
          rw [replacePass_step m repl fuel c cs hmc,
            replacePass_step m repl fuel2 c cs hmc]
          rw [ih fuel2 cs (by simp at hs; omega) (by simp at hs2; omega)]

theorem dropWhile_le_length (p : Char → Bool) (l : List Char) :
    (l.dropWhile p).length ≤ l.length := by
  induction l with
  | nil => simp
  | cons c cs ih =>
    rw [List.dropWhile_cons]
    split_ifs
    · exact Nat.le_succ_of_le ih
    · exact le_refl _

theorem dropWhile_append_all (p : Char → Bool) (l l2 : List Char)
    (h : l.all p) :
    (l ++ l2).dropWhile p = l2.dropWhile p := by
  induction l with
  | nil => rfl
  | cons c cs ih =>
    simp only [List.all_cons, Bool.and_eq_true] at h
    rw [List.cons_append, List.dropWhile_cons, if_pos h.1]
    exact ih h.2

theorem dropWhile_cons_neg (p : Char → Bool) (c : Char) (l : List Char)
    (h : p c = false) :
    (c :: l).dropWhile p = c :: l := by
  rw [List.dropWhile_cons, if_neg (by simp [h])]

theorem length_head?_pos (l : List Char) (c : Char) (h : l.head? = some c) :
    1 ≤ l.length := by
  cases l with
  | nil => cases h
  | cons a t => simp

/-- Every successful paren-field match consumes at least one character. -/
theorem matchParenField_lt (lit : List Char) (hlit : lit ≠ []) (s r : List Char)
    (h : matchParenField lit s = some r) : r.length < s.length := by
  rw [matchParenField] at h
  split_ifs at h with hp hparen hclose
  simp only [Option.some_inj] at h
  subst h
  have hlen1 : ((s.drop lit.length).dropWhile isJsWs).length ≤
      s.length - lit.length := by
    calc ((s.drop lit.length).dropWhile isJsWs).length
        ≤ (s.drop lit.length).length := dropWhile_le_length _ _
      _ = s.length - lit.length := List.length_drop _ _
  have hlen2 : (((s.drop lit.length).dropWhile isJsWs).tail.dropWhile
      (fun c2 => c2 != ')')).length ≤
      ((s.drop lit.length).dropWhile isJsWs).tail.length :=
    dropWhile_le_length _ _
  have hA : 1 ≤ ((s.drop lit.length).dropWhile isJsWs).length :=
    length_head?_pos _ _ hparen
  have hB : 1 ≤ (((s.drop lit.length).dropWhile isJsWs).tail.dropWhile
      (fun c2 => c2 != ')')).length :=
    length_head?_pos _ _ hclose
  have hsl : lit.length ≤ s.length :=
    (List.isPrefixOf_iff_prefix.mp hp).length_le
  have hl1 : 1 ≤ lit.length := by
    cases lit with
    | nil => exact absurd rfl hlit
    | cons a l => simp
  rw [List.length_tail] at hlen2 ⊢
  omega

/-- Every successful tag-field match consumes at least one character. -/
theorem matchTagField_lt (opn cls : List Char) (hopn : opn ≠ []) (s r : List Char)
    (h : matchTagField opn cls s = some r) : r.length < s.length := by
  rw [matchTagField] at h
  split_ifs at h with hp hc
  simp only [Option.some_inj] at h
  subst h
  have h1 : ((s.drop opn.length).dropWhile (fun c => c != '<')).length ≤
      s.length - opn.length := by
    calc ((s.drop opn.length).dropWhile (fun c => c != '<')).length
        ≤ (s.drop opn.length).length := dropWhile_le_length _ _
      _ = s.length - opn.length := List.length_drop _ _
  have hsl : opn.length ≤ s.length :=
    (List.isPrefixOf_iff_prefix.mp hp).length_le
  have hl1 : 1 ≤ opn.length := by
    cases opn with
    | nil => exact absurd rfl hopn
    | cons a l => simp
  rw [List.length_drop]
  omega

theorem matchParenField_none (lit s : List Char)
    (h : lit.isPrefixOf s = false) : matchParenField lit s = none := by
  rw [matchParenField, if_neg (by simp [h])]

theorem matchTagField_none (opn cls s : List Char)
    (h : opn.isPrefixOf s = false) : matchTagField opn cls s = none := by
  rw [matchTagField, if_neg (by simp [h])]

/-- The paren matcher consumes exactly a well-formed rendered field. -/
theorem matchParenField_exact (lit ws v rest : List Char)
    (hws : ws.all isJsWs = true) (hv : v.all (fun c => c != ')') = true) :
    matchParenField lit (lit ++ (ws ++ '(' :: (v ++ [')'])) ++ rest) = some rest := by
  have h1 : ((lit ++ (ws ++ '(' :: (v ++ [')'])) ++ rest).drop
      lit.length).dropWhile isJsWs = '(' :: ((v ++ [')']) ++ rest) := by
    rw [List.append_assoc, List.drop_left, List.append_assoc,
      dropWhile_append_all isJsWs ws _ hws, List.cons_append]
    exact dropWhile_cons_neg _ _ _ (by rfl)
  have h2 : (('(' :: ((v ++ [')']) ++ rest) : List Char).tail.dropWhile
      (fun c2 => c2 != ')')) = ')' :: rest := by
    show (((v ++ [')']) ++ rest).dropWhile fun c2 => c2 != ')') = ')' :: rest
    rw [List.append_assoc, dropWhile_append_all (fun c2 => c2 != ')') v _ hv,
      List.singleton_append]
    exact dropWhile_cons_neg _ _ _ (by rfl)
  rw [matchParenField]
  rw [if_pos (List.isPrefixOf_iff_prefix.mpr (by
    rw [List.append_assoc]
    exact List.prefix_append _ _))]
  rw [h1, if_pos (by rfl), h2]
  rw [if_pos (by rfl)]
  rfl

/-- The tag matcher consumes exactly a well-formed rendered field; the
closing literal must start with `<`. -/
theorem matchTagField_exact (opn clsTail v rest : List Char)
    (hv : v.all (fun c => c != '<') = true) :
    matchTagField opn ('<' :: clsTail)
      (opn ++ (v ++ '<' :: clsTail) ++ rest) = some rest := by
  have h1 : ((opn ++ (v ++ '<' :: clsTail) ++ rest).drop
      opn.length).dropWhile (fun c => c != '<') = ('<' :: clsTail) ++ rest := by
    rw [List.append_assoc, List.drop_left, List.append_assoc,
      dropWhile_append_all (fun c => c != '<') v _ hv]
    rw [List.cons_append]
    exact dropWhile_cons_neg _ _ _ (by rfl)
  rw [matchTagField]
  rw [if_pos (List.isPrefixOf_iff_prefix.mpr (by
    rw [List.append_assoc]
    exact List.prefix_append _ _))]
  rw [h1]
  rw [if_pos (List.isPrefixOf_iff_prefix.mpr (List.prefix_append _ _))]
  rw [List.drop_left]

/-! ### Prefix toolkit for the no-match regions -/

theorem prefix_getElem (L s : List Char) (h : L.isPrefixOf s = true)
    (j : Nat) (hj : j < L.length) : s[j]? = L[j]? := by
  obtain ⟨t, ht⟩ := List.isPrefixOf_iff_prefix.mp h
  subst ht
  rw [List.getElem?_append, if_pos hj]

theorem not_prefix_of_getElem_ne (L s : List Char) (j : Nat) (hj : j < L.length)
    (hne : L[j]? ≠ s[j]?) : L.isPrefixOf s = false := by
  by_contra h
  rw [Bool.not_eq_false] at h
  exact hne (prefix_getElem L s h j hj).symm

theorem isPrefixOf_append_of_le (L a b : List Char)
    (h : L.isPrefixOf (a ++ b) = true) (hle : L.length ≤ a.length) :
    L.isPrefixOf a = true := by
  rw [List.isPrefixOf_iff_prefix] at h ⊢
  rw [List.prefix_iff_eq_take] at h ⊢
  rw [List.take_append_of_le_length hle] at h
  exact h

theorem infixCheck_of_prefix_drop (L u : List Char) (i : Nat)
    (h : L.isPrefixOf (u.drop i) = true) : infixCheck L u = true := by
  induction u generalizing i with
  | nil =>
    simp only [List.drop_nil] at h
    cases L with
    | nil => rfl
    | cons c cs => simp [List.isPrefixOf] at h
  | cons c cs ih =>
    cases i with
    | zero =>
      simp only [List.drop_zero] at h
      simp [infixCheck, h]
    | succ i =>
      simp only [List.drop_succ_cons] at h
      simp [infixCheck, ih i h]

theorem not_prefix_cross (L a : List Char) (c : Char) (r : List Char)
    (hlen : a.length < L.length) (hne : L[a.length]? ≠ some c) :
    L.isPrefixOf (a ++ c :: r) = false := by
  apply not_prefix_of_getElem_ne L _ a.length hlen
  rw [List.getElem?_append, if_neg (by omega)]
  simpa using hne

theorem not_prefix_of_short (L a : List Char) (hlen : a.length < L.length) :
    L.isPrefixOf a = false := by
  by_contra h
  rw [Bool.not_eq_false] at h
  have := (List.isPrefixOf_iff_prefix.mp h).length_le
  omega

/-- A positionwise clash table: from every start position of `K`, the
pattern `L` disagrees with `K` before `K` runs out. -/
def internalClashB (L K : List Char) : Bool :=
  (List.range K.length).all fun i =>
    (List.range L.length).any fun j =>
      decide (i + j < K.length) && decide (L[j]? ≠ K[i + j]?)

theorem internalClashB_noStart (L K : List Char) (h : internalClashB L K = true)
    (i : Nat) (hi : i < K.length) (X : List Char) :
    L.isPrefixOf (K.drop i ++ X) = false := by
  rw [internalClashB, List.all_eq_true] at h
  have hi2 := h i (List.mem_range.mpr hi)
  rw [List.any_eq_true] at hi2
  obtain ⟨j, hjmem, hj⟩ := hi2
  rw [List.mem_range] at hjmem
  simp only [Bool.and_eq_true, decide_eq_true_eq] at hj
  obtain ⟨hjk, hne⟩ := hj
  apply not_prefix_of_getElem_ne L _ j hjmem
  rw [List.getElem?_append, if_pos (by rw [List.length_drop]; omega),
    List.getElem?_drop]
  exact hne

/-- From every position of a region whose characters can never begin the
pattern, no match can start. -/
theorem noStart_chars (L u : List Char) (hL : L ≠ [])
    (hu : ∀ c ∈ u, L[0]? ≠ some c) (i : Nat) (hi : i < u.length)
    (X : List Char) : L.isPrefixOf (u.drop i ++ X) = false := by
  have hdrop : i < u.length := hi
  have hne : u.drop i ≠ [] := by
    intro hnil
    have := congrArg List.length hnil
    rw [List.length_drop] at this
    simp at this
    omega
  rcases hd : u.drop i with _ | ⟨c, cs⟩
  · exact absurd hd hne
  · have hcmem : c ∈ u := by
      have : c ∈ u.drop i := by rw [hd]; exact List.mem_cons_self _ _
      exact List.mem_of_mem_drop this
    apply not_prefix_of_getElem_ne L _ 0
    · cases L with
      | nil => exact absurd rfl hL
      | cons a l => simp
    · simp only [List.cons_append, List.getElem?_cons_zero]
      exact hu c hcmem

theorem noStart_append (L a b rest : List Char)
    (hA : ∀ i, i < a.length → L.isPrefixOf (a.drop i ++ (b ++ rest)) = false)
    (hB : ∀ i, i < b.length → L.isPrefixOf (b.drop i ++ rest) = false) :
    ∀ i, i < (a ++ b).length → L.isPrefixOf ((a ++ b).drop i ++ rest) = false := by
  intro i hi
  rw [List.drop_append_eq_append_drop]
  by_cases hia : i < a.length
  · rw [Nat.sub_eq_zero_of_le (le_of_lt hia), List.drop_zero, List.append_assoc]
    exact hA i hia
  · rw [List.drop_eq_nil_of_le (by omega), List.nil_append]
    rw [List.length_append] at hi
    exact hB (i - a.length) (by omega)

theorem isJsWs_chars (c : Char) (h : isJsWs c = true) :
    c ≠ '/' ∧ c ≠ '<' ∧ c ≠ '(' ∧ c ≠ ')' := by
  simp only [isJsWs, Bool.or_eq_true, beq_iff_eq] at h
  rcases h with ((((rfl | rfl) | rfl) | rfl) | rfl) | rfl <;>
    refine ⟨by decide, by decide, by decide, by decide⟩

/-- No match can start inside the `[^)]*` content of a paren field: the
pattern would have to occur inside the content (excluded) or contain the
closing `)` (no pattern does). -/
theorem noStart_parenContent (L v rest : List Char)
    (hnol : infixCheck L v = false)
    (hclose : ∀ j, j < L.length → L[j]? ≠ some ')') :
    ∀ i, i < v.length → L.isPrefixOf (v.drop i ++ ')' :: rest) = false := by
  intro i hi
  by_cases hfit : L.length ≤ (v.drop i).length
  · by_contra hcon
    rw [Bool.not_eq_false] at hcon
    have hpre := isPrefixOf_append_of_le L (v.drop i) _ hcon hfit
    rw [infixCheck_of_prefix_drop L v i hpre] at hnol
    cases hnol
  · exact not_prefix_cross L (v.drop i) ')' rest (by omega)
      (hclose (v.drop i).length (by omega))

/-- No match can start inside the `[^<]*` content of a tag field: the
pattern would occur inside the content, or its character over the closing
`<` would be a `<` at positive index (no pattern has one — content
positions leave a nonempty suffix of the content before the `<`). -/
theorem noStart_tagContent (L v tail2 rest : List Char)
    (hnol : infixCheck L v = false)
    (hlt : ∀ j, j < L.length → 1 ≤ j → L[j]? ≠ some '<') :
    ∀ i, i < v.length → L.isPrefixOf (v.drop i ++ '<' :: (tail2 ++ rest)) = false := by
  intro i hi
  by_cases hfit : L.length ≤ (v.drop i).length
  · by_contra hcon
    rw [Bool.not_eq_false] at hcon
    have hpre := isPrefixOf_append_of_le L (v.drop i) _ hcon hfit
    rw [infixCheck_of_prefix_drop L v i hpre] at hnol
    cases hnol
  · exact not_prefix_cross L (v.drop i) '<' (tail2 ++ rest) (by omega)
      (hlt (v.drop i).length (by omega) (by rw [List.length_drop]; omega))

/-- No match can start inside a maximal plain chunk: the pattern does not
occur in it, and the chunk is followed by a field (whose first byte `/` or
`<` never occurs at a positive pattern index) or by the end of input. -/
theorem noStart_plain (L u rest : List Char)
    (hnol : infixCheck L u = false)
    (hP1 : ∀ j, j < L.length → 1 ≤ j → L[j]? ≠ some '/' ∧ L[j]? ≠ some '<')
    (hrest : rest = [] ∨ ∃ c r, rest = c :: r ∧ (c = '/' ∨ c = '<')) :
    ∀ i, i < u.length → L.isPrefixOf (u.drop i ++ rest) = false := by
  intro i hi
  by_cases hfit : L.length ≤ (u.drop i).length
  · by_contra hcon
    rw [Bool.not_eq_false] at hcon
    have hpre := isPrefixOf_append_of_le L (u.drop i) _ hcon hfit
    rw [infixCheck_of_prefix_drop L u i hpre] at hnol
    cases hnol
  · rcases hrest with hnil | ⟨c, r, hcr, hc⟩
    · subst hnil
      rw [List.append_nil]
      exact not_prefix_of_short L _ (by omega)
    · subst hcr
      have hidx : 1 ≤ (u.drop i).length := by
        rw [List.length_drop]
        omega
      have hP := hP1 (u.drop i).length (by omega) hidx
      rcases hc with rfl | rfl
      · exact not_prefix_cross L (u.drop i) _ r (by omega) hP.1
      · exact not_prefix_cross L (u.drop i) _ r (by omega) hP.2

/-- No match of pattern `L` starts anywhere inside (a rendering of) a paren
field with a different literal `lit2`. -/
theorem noStart_parenTok (L lit2 ws v rest : List Char) (hL : L ≠ [])
    (hic : internalClashB L lit2 = true)
    (hws : ws.all isJsWs = true)
    (hnol : infixCheck L v = false)
    (hhead : L[0]? = some '/' ∨ L[0]? = some '<')
    (hclose : ∀ j, j < L.length → L[j]? ≠ some ')') :
    ∀ i, i < (lit2 ++ ws ++ '(' :: (v ++ [')'])).length →
      L.isPrefixOf ((lit2 ++ ws ++ '(' :: (v ++ [')'])).drop i ++ rest) = false := by
  have hassoc : lit2 ++ ws ++ '(' :: (v ++ [')']) =
      lit2 ++ (ws ++ '(' :: (v ++ [')'])) := by
    rw [List.append_assoc]
  rw [hassoc]
  apply noStart_append
  · intro i hi
    exact internalClashB_noStart L lit2 hic i hi _
  · apply noStart_append
    · intro i hi
      apply noStart_chars L ws hL _ i hi
      intro c hc heq
      have hne := isJsWs_chars c (List.all_eq_true.mp hws c hc)
      rcases hhead with hh | hh <;> rw [hh] at heq <;>
        simp only [Option.some_inj] at heq
      · exact hne.1 heq.symm
      · exact hne.2.1 heq.symm
    · rw [show ('(' :: (v ++ [')']) : List Char) = ['('] ++ (v ++ [')']) from rfl]
      apply noStart_append
      · intro i hi
        apply noStart_chars L ['('] hL _ i hi
        intro c hc heq
        simp only [List.mem_singleton] at hc
        subst hc
        rcases hhead with hh | hh <;> rw [hh] at heq <;> cases heq
      · apply noStart_append
        · intro i hi
          have := noStart_parenContent L v rest hnol hclose i hi
          simpa using this
        · intro i hi
          apply noStart_chars L [')'] hL _ i hi
          intro c hc heq
          simp only [List.mem_singleton] at hc
          subst hc
          have h0 : 0 < L.length := by
            cases L with
            | nil => exact absurd rfl hL
            | cons a l => simp
          exact hclose 0 h0 heq

/-- No match of pattern `L` starts anywhere inside (a rendering of) a tag
field with a different open literal `opn2`. -/
theorem noStart_tagTok (L opn2 tail2 v rest : List Char) (_hL : L ≠ [])
    (hic : internalClashB L opn2 = true)
    (hic2 : internalClashB L ('<' :: tail2) = true)
    (hnol : infixCheck L v = false)
    (hlt : ∀ j, j < L.length → 1 ≤ j → L[j]? ≠ some '<') :
    ∀ i, i < (opn2 ++ v ++ '<' :: tail2).length →
      L.isPrefixOf ((opn2 ++ v ++ '<' :: tail2).drop i ++ rest) = false := by
  have hassoc : opn2 ++ v ++ '<' :: tail2 = opn2 ++ (v ++ '<' :: tail2) := by
    rw [List.append_assoc]
  rw [hassoc]
  apply noStart_append
  · intro i hi
    exact internalClashB_noStart L opn2 hic i hi _
  · apply noStart_append
    · intro i hi
      exact noStart_tagContent L v tail2 rest hnol hlt i hi
    · intro i hi
      exact internalClashB_noStart L ('<' :: tail2) hic2 i hi _

/-! ### The per-pass token updates -/

def ownCre : PdfTok → Bool
  | .fCre _ _ => true
  | _ => false

def ownMod : PdfTok → Bool
  | .fMod _ _ => true
  | _ => false

def ownXCre : PdfTok → Bool
  | .xCre _ => true
  | _ => false

def ownXMod : PdfTok → Bool
  | .xMod _ => true
  | _ => false

def ownXMeta : PdfTok → Bool
  | .xMeta _ => true
  | _ => false

def updCre : PdfTok → PdfTok
  | .fCre _ _ => .fCre [' '] (("D:20000101000000Z").data)
  | t => t

def updMod : PdfTok → PdfTok
  | .fMod _ _ => .fMod [' '] (("D:20000101000000Z").data)
  | t => t

def updXCre : PdfTok → PdfTok
  | .xCre _ => .xCre FIXED_ISO
  | t => t

def updXMod : PdfTok → PdfTok
  | .xMod _ => .xMod FIXED_ISO
  | t => t

def updXMeta : PdfTok → PdfTok
  | .xMeta _ => .xMeta FIXED_ISO
  | t => t

theorem wfDoc_cons (t : PdfTok) (ts : List PdfTok) (h : wfDoc (t :: ts) = true) :
    wfTok t = true ∧ wfDoc ts = true ∧
      (isPlain t = true → ∀ t2 ts2, ts = t2 :: ts2 → isPlain t2 = false) := by
  cases ts with
  | nil => exact ⟨h, rfl, fun _ t2 ts2 hc => by cases hc⟩
  | cons t2 ts2 =>
    simp only [wfDoc, Bool.and_eq_true] at h
    refine ⟨h.1.1, h.2, fun hp t3 ts3 hc => ?_⟩
    cases hc
    have := h.1.2
    rw [hp] at this
    simpa using this

theorem renderTok_ne_nil (t : PdfTok) (h : wfTok t = true) : renderTok t ≠ [] := by
  cases t with
  | plain cs =>
    simp only [wfTok, Bool.and_eq_true] at h
    intro hc
    rw [renderTok] at hc
    rw [hc] at h
    simp at h
  | fCre ws v => simp [renderTok, litCre]
  | fMod ws v => simp [renderTok, litMod]
  | xCre v => simp [renderTok, openCre]
  | xMod v => simp [renderTok, openModX]
  | xMeta v => simp [renderTok, openMeta]

theorem render_headOk (ts : List PdfTok)
    (h : ∀ t2 ts2, ts = t2 :: ts2 → isPlain t2 = false) :
    render ts = [] ∨ ∃ c r, render ts = c :: r ∧ (c = '/' ∨ c = '<') := by
  cases ts with
  | nil => exact Or.inl rfl
  | cons t2 ts2 =>
    have hp := h t2 ts2 rfl
    right
    cases t2 with
    | plain cs => rw [isPlain] at hp; cases hp
    | fCre ws v =>
      refine ⟨'/', ("CreationDate").data ++ ws ++ '(' :: (v ++ [')']) ++ render ts2,
        ?_, Or.inl rfl⟩
      rw [render, renderTok,
        show litCre = '/' :: ("CreationDate").data from by decide]
      simp
    | fMod ws v =>
      refine ⟨'/', ("ModDate").data ++ ws ++ '(' :: (v ++ [')']) ++ render ts2,
        ?_, Or.inl rfl⟩
      rw [render, renderTok, show litMod = '/' :: ("ModDate").data from by decide]
      simp
    | xCre v =>
      refine ⟨'<', ("xmp:CreateDate>").data ++ v ++ closeCre ++ render ts2,
        ?_, Or.inr rfl⟩
      rw [render, renderTok,
        show openCre = '<' :: ("xmp:CreateDate>").data from by decide]
      simp
    | xMod v =>
      refine ⟨'<', ("xmp:ModifyDate>").data ++ v ++ closeModX ++ render ts2,
        ?_, Or.inr rfl⟩
      rw [render, renderTok,
        show openModX = '<' :: ("xmp:ModifyDate>").data from by decide]
      simp
    | xMeta v =>
      refine ⟨'<', ("xmp:MetadataDate>").data ++ v ++ closeMeta ++ render ts2,
        ?_, Or.inr rfl⟩
      rw [render, renderTok,
        show openMeta = '<' :: ("xmp:MetadataDate>").data from by decide]
      simp

theorem replacePass_match2 (m : List Char → Option (List Char)) (repl : List Char)
    (fuel : Nat) (s r : List Char) (hs : s ≠ []) (hm : m s = some r) :
    replacePass m repl (fuel + 1) s = repl ++ replacePass m repl fuel r := by
  cases s with
  | nil => exact absurd rfl hs
  | cons c cs => exact replacePass_match m repl fuel c cs r hm

/-- One global replace turns a well-formed document's rendering into the
rendering of the updated token list, provided the matcher consumes exactly
the pass's own fields and never fires anywhere else. -/
theorem pass_render_generic
    (m : List Char → Option (List Char)) (repl : List Char) (upd : PdfTok → PdfTok)
    (own : PdfTok → Bool)
    (hexact : ∀ t rest, wfTok t = true → own t = true →
      m (renderTok t ++ rest) = some rest)
    (hrepl : ∀ t, own t = true → renderTok (upd t) = repl)
    (hid : ∀ t, own t = false → upd t = t)
    (hskip : ∀ t rest, wfTok t = true → own t = false →
      (isPlain t = true →
        rest = [] ∨ ∃ c r, rest = c :: r ∧ (c = '/' ∨ c = '<')) →
      ∀ i, i < (renderTok t).length →
        m ((renderTok t).drop i ++ rest) = none) :
    ∀ ts fuel, wfDoc ts = true → (render ts).length ≤ fuel →
      replacePass m repl fuel (render ts) = render (ts.map upd) := by
  intro ts
  induction ts with
  | nil =>
    intro fuel _ _
    rw [render, List.map_nil, render]
    exact replacePass_nil m repl fuel
  | cons t ts ih =>
    intro fuel hwf hfuel
    obtain ⟨hwt, hwts, hnoplain⟩ := wfDoc_cons t ts hwf
    rw [render, List.map_cons, render]
    have hne := renderTok_ne_nil t hwt
    have hlen1 : 1 ≤ (renderTok t).length := by
      cases hrt : renderTok t with
      | nil => exact absurd hrt hne
      | cons c cs => simp
    rw [render, List.length_append] at hfuel
    by_cases hown : own t = true
    · cases fuel with
      | zero => omega
      | succ fuel =>
        rw [replacePass_match2 m repl fuel _ _
          (by
            intro hc
            rw [List.append_eq_nil] at hc
            exact hne hc.1)
          (hexact t (render ts) hwt hown)]
        rw [ih fuel hwts (by omega), hrepl t hown]
    · have hown2 : own t = false := by simpa using hown
      have hok : isPlain t = true →
          render ts = [] ∨ ∃ c r, render ts = c :: r ∧ (c = '/' ∨ c = '<') :=
        fun hp => render_headOk ts (hnoplain hp)
      rw [show fuel = (renderTok t).length + (fuel - (renderTok t).length) from by
        omega]
      rw [replacePass_skip m repl (renderTok t) (render ts) _
        (hskip t (render ts) hwt hown2 hok)]
      rw [ih _ hwts (by omega), hid t hown2]

theorem noLits_proj (v : List Char) (h : noLits v = true) :
    infixCheck litCre v = false ∧ infixCheck litMod v = false ∧
    infixCheck openCre v = false ∧ infixCheck openModX v = false ∧
    infixCheck openMeta v = false := by
  simp only [noLits, Bool.and_eq_true, Bool.not_eq_true'] at h
  exact ⟨h.1.1.1.1, h.1.1.1.2, h.1.1.2, h.1.2, h.2⟩

theorem wfTok_plain_proj (cs : List Char) (h : wfTok (.plain cs) = true) :
    noLits cs = true := by
  simp only [wfTok, Bool.and_eq_true] at h
  exact h.2

theorem wfTok_fCre_proj (ws v : List Char) (h : wfTok (.fCre ws v) = true) :
    ws.all isJsWs = true ∧ v.all (fun c => c != ')') = true ∧ noLits v = true := by
  simp only [wfTok, Bool.and_eq_true] at h
  exact ⟨h.1.1, h.1.2, h.2⟩

theorem wfTok_fMod_proj (ws v : List Char) (h : wfTok (.fMod ws v) = true) :
    ws.all isJsWs = true ∧ v.all (fun c => c != ')') = true ∧ noLits v = true := by
  simp only [wfTok, Bool.and_eq_true] at h
  exact ⟨h.1.1, h.1.2, h.2⟩

theorem wfTok_xCre_proj (v : List Char) (h : wfTok (.xCre v) = true) :
    v.all (fun c => c != '<') = true ∧ noLits v = true := by
  simp only [wfTok, Bool.and_eq_true] at h
  exact h

theorem wfTok_xMod_proj (v : List Char) (h : wfTok (.xMod v) = true) :
    v.all (fun c => c != '<') = true ∧ noLits v = true := by
  simp only [wfTok, Bool.and_eq_true] at h
  exact h

theorem wfTok_xMeta_proj (v : List Char) (h : wfTok (.xMeta v) = true) :
    v.all (fun c => c != '<') = true ∧ noLits v = true := by
  simp only [wfTok, Bool.and_eq_true] at h
  exact h

/-! ### Pass 1: `/CreationDate\s*\([^)]*\)` -/

theorem hexact_litCre (t : PdfTok) (rest : List Char) (hwt : wfTok t = true)
    (hown : ownCre t = true) :
    matchParenField litCre (renderTok t ++ rest) = some rest := by
  cases t with
  | fCre ws v =>
    obtain ⟨hws, hv, _⟩ := wfTok_fCre_proj ws v hwt
    simp only [renderTok]
    rw [List.append_assoc litCre ws ('(' :: (v ++ [')']))]
    exact matchParenField_exact litCre ws v rest hws hv
  | plain cs => exact absurd hown (by simp [ownCre])
  | fMod ws v => exact absurd hown (by simp [ownCre])
  | xCre v => exact absurd hown (by simp [ownCre])
  | xMod v => exact absurd hown (by simp [ownCre])
  | xMeta v => exact absurd hown (by simp [ownCre])

theorem hskip_litCre (t : PdfTok) (rest : List Char) (hwt : wfTok t = true)
    (hown : ownCre t = false)
    (hok : isPlain t = true →
      rest = [] ∨ ∃ c r, rest = c :: r ∧ (c = '/' ∨ c = '<'))
    (i : Nat) (hi : i < (renderTok t).length) :
    matchParenField litCre ((renderTok t).drop i ++ rest) = none := by
  apply matchParenField_none
  cases t with
  | plain cs =>
    exact noStart_plain litCre cs rest (noLits_proj cs (wfTok_plain_proj cs hwt)).1
      (by decide) (hok rfl) i hi
  | fCre ws v => exact absurd hown (by simp [ownCre])
  | fMod ws v =>
    obtain ⟨hws, hv, hnl⟩ := wfTok_fMod_proj ws v hwt
    exact noStart_parenTok litCre litMod ws v rest (by decide) (by decide)
      hws (noLits_proj v hnl).1 (Or.inl (by decide)) (by decide) i hi
  | xCre v =>
    obtain ⟨hv, hnl⟩ := wfTok_xCre_proj v hwt
    simp only [renderTok] at hi ⊢
    rw [show closeCre = '<' :: ("/xmp:CreateDate>").data from by decide] at hi ⊢
    exact noStart_tagTok litCre openCre (("/xmp:CreateDate>").data) v rest
      (by decide) (by decide) (by decide) (noLits_proj v hnl).1 (by decide) i hi
  | xMod v =>
    obtain ⟨hv, hnl⟩ := wfTok_xMod_proj v hwt
    simp only [renderTok] at hi ⊢
    rw [show closeModX = '<' :: ("/xmp:ModifyDate>").data from by decide] at hi ⊢
    exact noStart_tagTok litCre openModX (("/xmp:ModifyDate>").data) v rest
      (by decide) (by decide) (by decide) (noLits_proj v hnl).1 (by decide) i hi
  | xMeta v =>
    obtain ⟨hv, hnl⟩ := wfTok_xMeta_proj v hwt
    simp only [renderTok] at hi ⊢
    rw [show closeMeta = '<' :: ("/xmp:MetadataDate>").data from by decide] at hi ⊢
    exact noStart_tagTok litCre openMeta (("/xmp:MetadataDate>").data) v rest
      (by decide) (by decide) (by decide) (noLits_proj v hnl).1 (by decide) i hi

/-! ### Pass 2: `/ModDate\s*\([^)]*\)` -/

theorem hexact_litMod (t : PdfTok) (rest : List Char) (hwt : wfTok t = true)
    (hown : ownMod t = true) :
    matchParenField litMod (renderTok t ++ rest) = some rest := by
  cases t with
  | fMod ws v =>
    obtain ⟨hws, hv, _⟩ := wfTok_fMod_proj ws v hwt
    simp only [renderTok]
    rw [List.append_assoc litMod ws ('(' :: (v ++ [')']))]
    exact matchParenField_exact litMod ws v rest hws hv
  | plain cs => exact absurd hown (by simp [ownMod])
  | fCre ws v => exact absurd hown (by simp [ownMod])
  | xCre v => exact absurd hown (by simp [ownMod])
  | xMod v => exact absurd hown (by simp [ownMod])
  | xMeta v => exact absurd hown (by simp [ownMod])

theorem hskip_litMod (t : PdfTok) (rest : List Char) (hwt : wfTok t = true)
    (hown : ownMod t = false)
    (hok : isPlain t = true →
      rest = [] ∨ ∃ c r, rest = c :: r ∧ (c = '/' ∨ c = '<'))
    (i : Nat) (hi : i < (renderTok t).length) :
    matchParenField litMod ((renderTok t).drop i ++ rest) = none := by
  apply matchParenField_none
  cases t with
  | plain cs =>
    exact noStart_plain litMod cs rest (noLits_proj cs (wfTok_plain_proj cs hwt)).2.1
      (by decide) (hok rfl) i hi
  | fMod ws v => exact absurd hown (by simp [ownMod])
  | fCre ws v =>
    obtain ⟨hws, hv, hnl⟩ := wfTok_fCre_proj ws v hwt
    exact noStart_parenTok litMod litCre ws v rest (by decide) (by decide)
      hws (noLits_proj v hnl).2.1 (Or.inl (by decide)) (by decide) i hi
  | xCre v =>
    obtain ⟨hv, hnl⟩ := wfTok_xCre_proj v hwt
    simp only [renderTok] at hi ⊢
    rw [show closeCre = '<' :: ("/xmp:CreateDate>").data from by decide] at hi ⊢
    exact noStart_tagTok litMod openCre (("/xmp:CreateDate>").data) v rest
      (by decide) (by decide) (by decide) (noLits_proj v hnl).2.1 (by decide) i hi
  | xMod v =>
    obtain ⟨hv, hnl⟩ := wfTok_xMod_proj v hwt
    simp only [renderTok] at hi ⊢
    rw [show closeModX = '<' :: ("/xmp:ModifyDate>").data from by decide] at hi ⊢
    exact noStart_tagTok litMod openModX (("/xmp:ModifyDate>").data) v rest
      (by decide) (by decide) (by decide) (noLits_proj v hnl).2.1 (by decide) i hi
  | xMeta v =>
    obtain ⟨hv, hnl⟩ := wfTok_xMeta_proj v hwt
    simp only [renderTok] at hi ⊢
    rw [show closeMeta = '<' :: ("/xmp:MetadataDate>").data from by decide] at hi ⊢
    exact noStart_tagTok litMod openMeta (("/xmp:MetadataDate>").data) v rest
      (by decide) (by decide) (by decide) (noLits_proj v hnl).2.1 (by decide) i hi

/-! ### Pass 3: `<xmp:CreateDate>[^<]*</xmp:CreateDate>` -/

theorem hexact_xCre (t : PdfTok) (rest : List Char) (hwt : wfTok t = true)
    (hown : ownXCre t = true) :
    matchTagField openCre closeCre (renderTok t ++ rest) = some rest := by
  cases t with
  | xCre v =>
    obtain ⟨hv, _⟩ := wfTok_xCre_proj v hwt
    simp only [renderTok]
    rw [show closeCre = '<' :: ("/xmp:CreateDate>").data from by decide]
    rw [List.append_assoc openCre v _]
    exact matchTagField_exact openCre (("/xmp:CreateDate>").data) v rest hv
  | plain cs => exact absurd hown (by simp [ownXCre])
  | fCre ws v => exact absurd hown (by simp [ownXCre])
  | fMod ws v => exact absurd hown (by simp [ownXCre])
  | xMod v => exact absurd hown (by simp [ownXCre])
  | xMeta v => exact absurd hown (by simp [ownXCre])

theorem hskip_xCre (t : PdfTok) (rest : List Char) (hwt : wfTok t = true)
    (hown : ownXCre t = false)
    (hok : isPlain t = true →
      rest = [] ∨ ∃ c r, rest = c :: r ∧ (c = '/' ∨ c = '<'))
    (i : Nat) (hi : i < (renderTok t).length) :
    matchTagField openCre closeCre ((renderTok t).drop i ++ rest) = none := by
  apply matchTagField_none
  cases t with
  | plain cs =>
    exact noStart_plain openCre cs rest
      (noLits_proj cs (wfTok_plain_proj cs hwt)).2.2.1
      (by decide) (hok rfl) i hi
  | xCre v => exact absurd hown (by simp [ownXCre])
  | fCre ws v =>
    obtain ⟨hws, hv, hnl⟩ := wfTok_fCre_proj ws v hwt
    exact noStart_parenTok openCre litCre ws v rest (by decide) (by decide)
      hws (noLits_proj v hnl).2.2.1 (Or.inr (by decide)) (by decide) i hi
  | fMod ws v =>
    obtain ⟨hws, hv, hnl⟩ := wfTok_fMod_proj ws v hwt
    exact noStart_parenTok openCre litMod ws v rest (by decide) (by decide)
      hws (noLits_proj v hnl).2.2.1 (Or.inr (by decide)) (by decide) i hi
  | xMod v =>
    obtain ⟨hv, hnl⟩ := wfTok_xMod_proj v hwt
    simp only [renderTok] at hi ⊢
    rw [show closeModX = '<' :: ("/xmp:ModifyDate>").data from by decide] at hi ⊢
    exact noStart_tagTok openCre openModX (("/xmp:ModifyDate>").data) v rest
      (by decide) (by decide) (by decide) (noLits_proj v hnl).2.2.1 (by decide) i hi
  | xMeta v =>
    obtain ⟨hv, hnl⟩ := wfTok_xMeta_proj v hwt
    simp only [renderTok] at hi ⊢
    rw [show closeMeta = '<' :: ("/xmp:MetadataDate>").data from by decide] at hi ⊢
    exact noStart_tagTok openCre openMeta (("/xmp:MetadataDate>").data) v rest
      (by decide) (by decide) (by decide) (noLits_proj v hnl).2.2.1 (by decide) i hi

/-! ### Pass 4: `<xmp:ModifyDate>[^<]*</xmp:ModifyDate>` -/

theorem hexact_xMod (t : PdfTok) (rest : List Char) (hwt : wfTok t = true)
    (hown : ownXMod t = true) :
    matchTagField openModX closeModX (renderTok t ++ rest) = some rest := by
  cases t with
  | xMod v =>
    obtain ⟨hv, _⟩ := wfTok_xMod_proj v hwt
    simp only [renderTok]
    rw [show closeModX = '<' :: ("/xmp:ModifyDate>").data from by decide]
    rw [List.append_assoc openModX v _]
    exact matchTagField_exact openModX (("/xmp:ModifyDate>").data) v rest hv
  | plain cs => exact absurd hown (by simp [ownXMod])
  | fCre ws v => exact absurd hown (by simp [ownXMod])
  | fMod ws v => exact absurd hown (by simp [ownXMod])
  | xCre v => exact absurd hown (by simp [ownXMod])
  | xMeta v => exact absurd hown (by simp [ownXMod])

theorem hskip_xMod (t : PdfTok) (rest : List Char) (hwt : wfTok t = true)
    (hown : ownXMod t = false)
    (hok : isPlain t = true →
      rest = [] ∨ ∃ c r, rest = c :: r ∧ (c = '/' ∨ c = '<'))
    (i : Nat) (hi : i < (renderTok t).length) :
    matchTagField openModX closeModX ((renderTok t).drop i ++ rest) = none := by
  apply matchTagField_none
  cases t with
  | plain cs =>
    exact noStart_plain openModX cs rest
      (noLits_proj cs (wfTok_plain_proj cs hwt)).2.2.2.1
      (by decide) (hok rfl) i hi
  | xMod v => exact absurd hown (by simp [ownXMod])
  | fCre ws v =>
    obtain ⟨hws, hv, hnl⟩ := wfTok_fCre_proj ws v hwt
    exact noStart_parenTok openModX litCre ws v rest (by decide) (by decide)
      hws (noLits_proj v hnl).2.2.2.1 (Or.inr (by decide)) (by decide) i hi
  | fMod ws v =>
    obtain ⟨hws, hv, hnl⟩ := wfTok_fMod_proj ws v hwt
    exact noStart_parenTok openModX litMod ws v rest (by decide) (by decide)
      hws (noLits_proj v hnl).2.2.2.1 (Or.inr (by decide)) (by decide) i hi
  | xCre v =>
    obtain ⟨hv, hnl⟩ := wfTok_xCre_proj v hwt
    simp only [renderTok] at hi ⊢
    rw [show closeCre = '<' :: ("/xmp:CreateDate>").data from by decide] at hi ⊢
    exact noStart_tagTok openModX openCre (("/xmp:CreateDate>").data) v rest
      (by decide) (by decide) (by decide) (noLits_proj v hnl).2.2.2.1 (by decide) i hi
  | xMeta v =>
    obtain ⟨hv, hnl⟩ := wfTok_xMeta_proj v hwt
    simp only [renderTok] at hi ⊢
    rw [show closeMeta = '<' :: ("/xmp:MetadataDate>").data from by decide] at hi ⊢
    exact noStart_tagTok openModX openMeta (("/xmp:MetadataDate>").data) v rest
      (by decide) (by decide) (by decide) (noLits_proj v hnl).2.2.2.1 (by decide) i hi

/-! ### Pass 5: `<xmp:MetadataDate>[^<]*</xmp:MetadataDate>` -/

theorem hexact_xMeta (t : PdfTok) (rest : List Char) (hwt : wfTok t = true)
    (hown : ownXMeta t = true) :
    matchTagField openMeta closeMeta (renderTok t ++ rest) = some rest := by
  cases t with
  | xMeta v =>
    obtain ⟨hv, _⟩ := wfTok_xMeta_proj v hwt
    simp only [renderTok]
    rw [show closeMeta = '<' :: ("/xmp:MetadataDate>").data from by decide]
    rw [List.append_assoc openMeta v _]
    exact matchTagField_exact openMeta (("/xmp:MetadataDate>").data) v rest hv
  | plain cs => exact absurd hown (by simp [ownXMeta])
  | fCre ws v => exact absurd hown (by simp [ownXMeta])
  | fMod ws v => exact absurd hown (by simp [ownXMeta])
  | xCre v => exact absurd hown (by simp [ownXMeta])
  | xMod v => exact absurd hown (by simp [ownXMeta])

theorem hskip_xMeta (t : PdfTok) (rest : List Char) (hwt : wfTok t = true)
    (hown : ownXMeta t = false)
    (hok : isPlain t = true →
      rest = [] ∨ ∃ c r, rest = c :: r ∧ (c = '/' ∨ c = '<'))
    (i : Nat) (hi : i < (renderTok t).length) :
    matchTagField openMeta closeMeta ((renderTok t).drop i ++ rest) = none := by
  apply matchTagField_none
  cases t with
  | plain cs =>
    exact noStart_plain openMeta cs rest
      (noLits_proj cs (wfTok_plain_proj cs hwt)).2.2.2.2
      (by decide) (hok rfl) i hi
  | xMeta v => exact absurd hown (by simp [ownXMeta])
  | fCre ws v =>
    obtain ⟨hws, hv, hnl⟩ := wfTok_fCre_proj ws v hwt
    exact noStart_parenTok openMeta litCre ws v rest (by decide) (by decide)
      hws (noLits_proj v hnl).2.2.2.2 (Or.inr (by decide)) (by decide) i hi
  | fMod ws v =>
    obtain ⟨hws, hv, hnl⟩ := wfTok_fMod_proj ws v hwt
    exact noStart_parenTok openMeta litMod ws v rest (by decide) (by decide)
      hws (noLits_proj v hnl).2.2.2.2 (Or.inr (by decide)) (by decide) i hi
  | xCre v =>
    obtain ⟨hv, hnl⟩ := wfTok_xCre_proj v hwt
    simp only [renderTok] at hi ⊢
    rw [show closeCre = '<' :: ("/xmp:CreateDate>").data from by decide] at hi ⊢
    exact noStart_tagTok openMeta openCre (("/xmp:CreateDate>").data) v rest
      (by decide) (by decide) (by decide) (noLits_proj v hnl).2.2.2.2 (by decide) i hi
  | xMod v =>
    obtain ⟨hv, hnl⟩ := wfTok_xMod_proj v hwt
    simp only [renderTok] at hi ⊢
    rw [show closeModX = '<' :: ("/xmp:ModifyDate>").data from by decide] at hi ⊢
    exact noStart_tagTok openMeta openModX (("/xmp:ModifyDate>").data) v rest
      (by decide) (by decide) (by decide) (noLits_proj v hnl).2.2.2.2 (by decide) i hi

/-! ### The five passes on well-formed documents, and their composition -/

theorem hrepl_litCre (t : PdfTok) (hown : ownCre t = true) :
    renderTok (updCre t) = litCre ++ (" ").data ++ FIXED_PDF := by
  cases t <;> first | (simp only [updCre]; decide) | simp [ownCre] at hown

theorem hid_litCre (t : PdfTok) (hown : ownCre t = false) : updCre t = t := by
  cases t <;> first | rfl | simp [ownCre] at hown

theorem hrepl_litMod (t : PdfTok) (hown : ownMod t = true) :
    renderTok (updMod t) = litMod ++ (" ").data ++ FIXED_PDF := by
  cases t <;> first | (simp only [updMod]; decide) | simp [ownMod] at hown

theorem hid_litMod (t : PdfTok) (hown : ownMod t = false) : updMod t = t := by
  cases t <;> first | rfl | simp [ownMod] at hown

theorem hrepl_xCre (t : PdfTok) (hown : ownXCre t = true) :
    renderTok (updXCre t) = openCre ++ FIXED_ISO ++ closeCre := by
  cases t <;> first | (simp only [updXCre]; decide) | simp [ownXCre] at hown

theorem hid_xCre (t : PdfTok) (hown : ownXCre t = false) : updXCre t = t := by
  cases t <;> first | rfl | simp [ownXCre] at hown

theorem hrepl_xMod (t : PdfTok) (hown : ownXMod t = true) :
    renderTok (updXMod t) = openModX ++ FIXED_ISO ++ closeModX := by
  cases t <;> first | (simp only [updXMod]; decide) | simp [ownXMod] at hown

theorem hid_xMod (t : PdfTok) (hown : ownXMod t = false) : updXMod t = t := by
  cases t <;> first | rfl | simp [ownXMod] at hown

theorem hrepl_xMeta (t : PdfTok) (hown : ownXMeta t = true) :
    renderTok (updXMeta t) = openMeta ++ FIXED_ISO ++ closeMeta := by
  cases t <;> first | (simp only [updXMeta]; decide) | simp [ownXMeta] at hown

theorem hid_xMeta (t : PdfTok) (hown : ownXMeta t = false) : updXMeta t = t := by
  cases t <;> first | rfl | simp [ownXMeta] at hown

theorem passCre_render (ts : List PdfTok) (hwf : wfDoc ts = true) :
    replaceAll (matchParenField litCre) (litCre ++ (" ").data ++ FIXED_PDF)
      (render ts) = render (ts.map updCre) := by
  rw [replaceAll]
  exact pass_render_generic (matchParenField litCre) _ updCre ownCre
    hexact_litCre hrepl_litCre hid_litCre hskip_litCre ts (render ts).length hwf
    (le_refl _)

theorem passMod_render (ts : List PdfTok) (hwf : wfDoc ts = true) :
    replaceAll (matchParenField litMod) (litMod ++ (" ").data ++ FIXED_PDF)
      (render ts) = render (ts.map updMod) := by
  rw [replaceAll]
  exact pass_render_generic (matchParenField litMod) _ updMod ownMod
    hexact_litMod hrepl_litMod hid_litMod hskip_litMod ts (render ts).length hwf
    (le_refl _)

theorem passXCre_render (ts : List PdfTok) (hwf : wfDoc ts = true) :
    replaceAll (matchTagField openCre closeCre) (openCre ++ FIXED_ISO ++ closeCre)
      (render ts) = render (ts.map updXCre) := by
  rw [replaceAll]
  exact pass_render_generic (matchTagField openCre closeCre) _ updXCre ownXCre
    hexact_xCre hrepl_xCre hid_xCre hskip_xCre ts (render ts).length hwf
    (le_refl _)

theorem passXMod_render (ts : List PdfTok) (hwf : wfDoc ts = true) :
    replaceAll (matchTagField openModX closeModX) (openModX ++ FIXED_ISO ++ closeModX)
      (render ts) = render (ts.map updXMod) := by
  rw [replaceAll]
  exact pass_render_generic (matchTagField openModX closeModX) _ updXMod ownXMod
    hexact_xMod hrepl_xMod hid_xMod hskip_xMod ts (render ts).length hwf
    (le_refl _)

theorem passXMeta_render (ts : List PdfTok) (hwf : wfDoc ts = true) :
    replaceAll (matchTagField openMeta closeMeta) (openMeta ++ FIXED_ISO ++ closeMeta)
      (render ts) = render (ts.map updXMeta) := by
  rw [replaceAll]
  exact pass_render_generic (matchTagField openMeta closeMeta) _ updXMeta ownXMeta
    hexact_xMeta hrepl_xMeta hid_xMeta hskip_xMeta ts (render ts).length hwf
    (le_refl _)

theorem wfTok_updCre (t : PdfTok) (h : wfTok t = true) : wfTok (updCre t) = true := by
  cases t <;> first | exact h | (simp only [updCre]; decide)

theorem isPlain_updCre (t : PdfTok) : isPlain (updCre t) = isPlain t := by
  cases t <;> rfl

theorem wfTok_updMod (t : PdfTok) (h : wfTok t = true) : wfTok (updMod t) = true := by
  cases t <;> first | exact h | (simp only [updMod]; decide)

theorem isPlain_updMod (t : PdfTok) : isPlain (updMod t) = isPlain t := by
  cases t <;> rfl

theorem wfTok_updXCre (t : PdfTok) (h : wfTok t = true) : wfTok (updXCre t) = true := by
  cases t <;> first | exact h | (simp only [updXCre]; decide)

theorem isPlain_updXCre (t : PdfTok) : isPlain (updXCre t) = isPlain t := by
  cases t <;> rfl

theorem wfTok_updXMod (t : PdfTok) (h : wfTok t = true) : wfTok (updXMod t) = true := by
  cases t <;> first | exact h | (simp only [updXMod]; decide)

theorem isPlain_updXMod (t : PdfTok) : isPlain (updXMod t) = isPlain t := by
  cases t <;> rfl

theorem wfTok_updXMeta (t : PdfTok) (h : wfTok t = true) : wfTok (updXMeta t) = true := by
  cases t <;> first | exact h | (simp only [updXMeta]; decide)

theorem isPlain_updXMeta (t : PdfTok) : isPlain (updXMeta t) = isPlain t := by
  cases t <;> rfl

theorem wfTok_normTok (t : PdfTok) (h : wfTok t = true) : wfTok (normTok t) = true := by
  cases t <;> first | exact h | (simp only [normTok]; decide)

theorem isPlain_normTok (t : PdfTok) : isPlain (normTok t) = isPlain t := by
  cases t <;> rfl

theorem wfDoc_map (upd : PdfTok → PdfTok)
    (hwt : ∀ t, wfTok t = true → wfTok (upd t) = true)
    (hp : ∀ t, isPlain (upd t) = isPlain t) :
    ∀ ts, wfDoc ts = true → wfDoc (ts.map upd) = true := by
  intro ts
  induction ts with
  | nil => intro h; exact h
  | cons t ts ih =>
    intro h
    cases ts with
    | nil =>
      show wfDoc [upd t] = true
      show wfTok (upd t) = true
      exact hwt t h
    | cons t2 ts2 =>
      simp only [wfDoc, Bool.and_eq_true] at h
      obtain ⟨⟨h1, h2⟩, h3⟩ := h
      have ih2 := ih h3
      simp only [List.map_cons] at ih2 ⊢
      show (wfTok (upd t) && !(isPlain (upd t) && isPlain (upd t2))
        && wfDoc (upd t2 :: ts2.map upd)) = true
      rw [Bool.and_eq_true, Bool.and_eq_true]
      refine ⟨⟨hwt t h1, ?_⟩, ih2⟩
      rw [hp t, hp t2]
      exact h2

/-- On a well-formed document, `normalizePdfDates` rewrites exactly the
date fields to the fixed sentinels and leaves everything else alone. -/
theorem normalize_render (ts : List PdfTok) (hwf : wfDoc ts = true) :
    normalizePdfDates (render ts) = render (ts.map normTok) := by
  have hwf1 : wfDoc (ts.map updCre) = true :=
    wfDoc_map updCre wfTok_updCre isPlain_updCre ts hwf
  have hwf2 : wfDoc ((ts.map updCre).map updMod) = true :=
    wfDoc_map updMod wfTok_updMod isPlain_updMod _ hwf1
  have hwf3 : wfDoc (((ts.map updCre).map updMod).map updXCre) = true :=
    wfDoc_map updXCre wfTok_updXCre isPlain_updXCre _ hwf2
  have hwf4 : wfDoc ((((ts.map updCre).map updMod).map updXCre).map updXMod) = true :=
    wfDoc_map updXMod wfTok_updXMod isPlain_updXMod _ hwf3
  rw [normalizePdfDates, passCre_render ts hwf, passMod_render _ hwf1,
    passXCre_render _ hwf2, passXMod_render _ hwf3, passXMeta_render _ hwf4]
  simp only [List.map_map]
  rw [show (updXMeta ∘ updXMod ∘ updXCre ∘ updMod ∘ updCre) = normTok from
    funext fun t => by cases t <;> rfl]

/-! ## Claim theorems: the serial queue -/

/-- Example tasks for the queue theorems: task 1 rejects. -/
def exTasks : List (List Nat → List Nat × Except String Unit) :=
  [fun s => (s ++ [0], .ok ()),
   fun s => (s ++ [1], .error "boom"),
   fun s => (s ++ [2], .ok ())]

/-- C1.  If the `k`-th enqueued task rejects, the caller of that `enqueue`
call receives that exact rejection, and the queue still executes every
task: the shared state ends up as if all `tasks` ran sequentially, and every
caller got an answer. -/
theorem queue_survives_task_rejection {σ ε α : Type}
    (tasks : List (σ → σ × Except ε α)) (s0 : σ) (k : Nat) (hk : k < tasks.length)
    (e : ε) (hrej : (tasks.get ⟨k, hk⟩ (execAll (tasks.take k) s0).1).2 = .error e) :
    (runQueue tasks s0).2[k]? = some (.error e)
    ∧ (runQueue tasks s0).1.shared = (execAll tasks s0).1
    ∧ (runQueue tasks s0).2.length = tasks.length := by
  rw [runQueue_eq_execAll]
  refine ⟨?_, rfl, execAll_length tasks s0⟩
  rw [execAll_getElem tasks s0 k hk]
  simp only [List.get_eq_getElem] at hrej
  rw [hrej]

theorem queue_survives_task_rejection_witness :
    (runQueue exTasks ([] : List Nat)).2[1]? = some (.error "boom")
    ∧ (runQueue exTasks ([] : List Nat)).1.shared = (execAll exTasks []).1
    ∧ (runQueue exTasks ([] : List Nat)).2.length = exTasks.length :=
  queue_survives_task_rejection exTasks [] 1 (by norm_num [exTasks]) "boom" rfl

/-- C2.  Tasks enqueued without awaiting individually run one at a time and
their side effects on the shared state occur strictly in enqueue order: the
queue is extensionally the sequential executor, and for tasks that log their
index, the final log is exactly `0, 1, …, n-1`. -/
theorem queue_runs_tasks_in_enqueue_order {σ ε α : Type}
    (tasks : List (σ → σ × Except ε α)) (s0 : σ) :
    (runQueue tasks s0).1.shared = (execAll tasks s0).1
    ∧ (runQueue tasks s0).2 = (execAll tasks s0).2
    ∧ ∀ n : Nat, (runQueue (logTasks ε n) ([] : List Nat)).1.shared = List.range n := by
  refine ⟨?_, ?_, ?_⟩
  · rw [runQueue_eq_execAll]
  · rw [runQueue_eq_execAll]
  · intro n
    rw [runQueue_eq_execAll]
    simp only [logTasks]
    rw [execAll_logTasks_aux]
    simp

/-! ## Claim theorems: pairwise overlap / too-close -/

/-- The spec example box `A = [0, 0, 10, 10]`. -/
def exA : TextNode := ⟨("A").data, 0, 0, 10, 10, 10, 10, false⟩

/-- The spec example box `B = [4, 4, 14, 14]`. -/
def exB : TextNode := ⟨("B").data, 4, 4, 10, 10, 14, 14, false⟩

/-- C3.  For a pair of non-opted-out text nodes: the pair is classified
Overlap iff `ox > 2` and `oy > 2`, with magnitude the (rounded) product
`ox·oy`; otherwise it is classified TooClose iff both gaps
`gx = max(0, -ox)` and `gy = max(0, -oy)` are below 3 units, with severity
the (rounded) larger gap; and no pair ever receives both findings. -/
theorem pairwise_overlap_tooclose_spec (a b : TextNode) :
    ((∃ o, classifyPair a b = some (Sum.inl o)) ↔ 2 < oxOf a b ∧ 2 < oyOf a b)
    ∧ (∀ o, classifyPair a b = some (Sum.inl o) →
        o.overlapPx = jsRound (oxOf a b * oyOf a b))
    ∧ ((∃ c, classifyPair a b = some (Sum.inr c)) ↔
        ¬(2 < oxOf a b ∧ 2 < oyOf a b)
          ∧ max 0 (-oxOf a b) < 3 ∧ max 0 (-oyOf a b) < 3)
    ∧ (∀ c, classifyPair a b = some (Sum.inr c) →
        c.gapPx = jsRound (max (max 0 (-oxOf a b)) (max 0 (-oyOf a b))))
    ∧ ¬((∃ o, classifyPair a b = some (Sum.inl o))
        ∧ ∃ c, classifyPair a b = some (Sum.inr c)) := by
  refine ⟨?_, ?_, ?_, ?_, ?_⟩
  · by_cases hov : 2 < oxOf a b ∧ 2 < oyOf a b <;>
      simp [classifyPair, hov]
  · intro o ho
    by_cases hov : 2 < oxOf a b ∧ 2 < oyOf a b
    · simp only [classifyPair, if_pos hov, Option.some_inj, Sum.inl.injEq] at ho
      rw [← ho]
    · simp only [classifyPair, if_neg hov] at ho
      split_ifs at ho
      simp at ho
  · by_cases hov : 2 < oxOf a b ∧ 2 < oyOf a b
    · simp [classifyPair, hov]
    · by_cases hgap : max 0 (-oxOf a b) < 3 ∧ max 0 (-oyOf a b) < 3 <;>
        simp [classifyPair, hov, hgap]
  · intro c hc
    by_cases hov : 2 < oxOf a b ∧ 2 < oyOf a b
    · simp [classifyPair, hov] at hc
    · simp only [classifyPair, if_neg hov] at hc
      split_ifs at hc with hgap
      simp only [Option.some_inj, Sum.inr.injEq] at hc
      rw [← hc]
  · rintro ⟨⟨o, ho⟩, ⟨c, hc⟩⟩
    rw [ho] at hc
    simp at hc

theorem pairwise_overlap_tooclose_spec_witness :
    ∃ o, classifyPair exA exB = some (Sum.inl o) ∧ o.overlapPx = 36 := by
  obtain ⟨o, ho⟩ := (pairwise_overlap_tooclose_spec exA exB).1.mpr
    (by norm_num [oxOf, oyOf, exA, exB])
  refine ⟨o, ho, ?_⟩
  rw [(pairwise_overlap_tooclose_spec exA exB).2.1 o ho]
  norm_num [oxOf, oyOf, exA, exB, jsRound]

/-! ## Claim theorems: canvas clipping -/

/-- C5.  The clipping check runs over all surviving text elements (opted-out
ones included — no `skip` filter), reports an element iff its box extends
beyond `[0, 0, W, H]` by more than 2 units on some side, picks an edge that
is indeed violated, and reports as magnitude the (rounded) maximum violation
across the four edges; an element box `[-5, 0, 10, 10]` on a canvas at least
5 wide and 5 tall is Clipped with edge `left` and amount `5`. -/
theorem canvas_clipping_spec (textEls : List SvgTextEl) (rectEls : List SvgRectEl)
    (W H : ℚ) :
    ((analyze textEls rectEls W H).clipped =
      (((textEls.map toNode).filter keep).filter (clipPred W H)).map (mkClipped W H))
    ∧ (∀ t : TextNode, clipPred W H t = true ↔ 2 < clipMaxViol W H t)
    ∧ (∀ t : TextNode, clipPred W H t = true →
        ((clipEdge W H t = Edge.left → t.x < -2)
          ∧ (clipEdge W H t = Edge.right → W + 2 < t.r)
          ∧ (clipEdge W H t = Edge.top → t.y < -2)
          ∧ (clipEdge W H t = Edge.bottom → H + 2 < t.b)))
    ∧ (∀ t : TextNode, (mkClipped W H t).overflowPx = jsRound (clipMaxViol W H t))
    ∧ (∀ t : TextNode, 5 ≤ W → 5 ≤ H → t.x = -5 → t.y = 0 → t.r = 10 → t.b = 10 →
        clipPred W H t = true ∧ clipEdge W H t = Edge.left
          ∧ (mkClipped W H t).overflowPx = 5) := by
  refine ⟨rfl, ?_, ?_, fun t => rfl, ?_⟩
  · intro t
    simp only [clipPred, Bool.or_eq_true, decide_eq_true_eq, clipMaxViol, lt_max_iff]
    constructor
    · rintro (((h | h) | h) | h)
      · exact Or.inl (Or.inl (Or.inl (by linarith)))
      · exact Or.inl (Or.inl (Or.inr (by linarith)))
      · exact Or.inl (Or.inr (by linarith))
      · exact Or.inr (by linarith)
    · rintro (((h | h) | h) | h)
      · exact Or.inl (Or.inl (Or.inl (by linarith)))
      · exact Or.inl (Or.inl (Or.inr (by linarith)))
      · exact Or.inl (Or.inr (by linarith))
      · exact Or.inr (by linarith)
  · intro t ht
    simp only [clipPred, Bool.or_eq_true, decide_eq_true_eq] at ht
    unfold clipEdge
    split_ifs with h1 h2 h3
    · refine ⟨fun _ => h1, ?_, ?_, ?_⟩ <;> intro hc <;> exact absurd hc (by decide)
    · refine ⟨?_, fun _ => h2, ?_, ?_⟩ <;> intro hc <;> exact absurd hc (by decide)
    · refine ⟨?_, ?_, fun _ => h3, ?_⟩ <;> intro hc <;> exact absurd hc (by decide)
    · refine ⟨?_, ?_, ?_, fun _ => ?_⟩
      · intro hc; exact absurd hc (by decide)
      · intro hc; exact absurd hc (by decide)
      · intro hc; exact absurd hc (by decide)
      · rcases ht with ((h | h) | h) | h
        · exact absurd h h2
        · exact h
        · exact absurd h h1
        · exact absurd h h3
  · intro t hW hH hx hy hr hb
    have hviol : clipMaxViol W H t = 5 := by
      rw [clipMaxViol, hx, hy, hr, hb]
      rw [show -(-5 : ℚ) = 5 by norm_num, show -(0 : ℚ) = 0 by norm_num]
      rw [max_eq_right (max_le (by linarith) (by linarith) : max (10 - W) (10 - H) ≤ (5 : ℚ))]
      exact max_eq_left (by norm_num)
    refine ⟨?_, ?_, ?_⟩
    · simp only [clipPred, Bool.or_eq_true, decide_eq_true_eq]
      exact Or.inl (Or.inr (by rw [hx]; norm_num))
    · rw [clipEdge, if_pos (show t.x < -2 by rw [hx]; norm_num)]
    · show jsRound (clipMaxViol W H t) = 5
      rw [hviol]
      norm_num [jsRound]

/-- The clipping example element: box `[-5, 0, 10, 10]`. -/
def exClip : TextNode := ⟨("x").data, -5, 0, 15, 10, 10, 10, false⟩

theorem canvas_clipping_spec_witness :
    clipPred 100 100 exClip = true ∧ clipEdge 100 100 exClip = Edge.left
      ∧ (mkClipped 100 100 exClip).overflowPx = 5 :=
  (canvas_clipping_spec [] [] 100 100).2.2.2.2 exClip (by norm_num) (by norm_num)
    rfl rfl rfl rfl

/-! ## Claim theorems: container overflow -/

theorem pickSmallest_mem (a : RectBox) (l : List RectBox) :
    pickSmallest a l ∈ a :: l := by
  induction l generalizing a with
  | nil => simp [pickSmallest]
  | cons bx bs ih =>
    simp only [pickSmallest]
    rcases List.mem_cons.mp (ih (if a.area ≤ bx.area then a else bx)) with h | h
    · rw [h]
      split_ifs
      · exact List.mem_cons_self _ _
      · exact List.mem_cons_of_mem _ (List.mem_cons_self _ _)
    · exact List.mem_cons_of_mem _ (List.mem_cons_of_mem _ h)

theorem pickSmallest_le (a : RectBox) (l : List RectBox) :
    ∀ bx ∈ a :: l, (pickSmallest a l).area ≤ bx.area := by
  induction l generalizing a with
  | nil =>
    intro bx hbx
    rw [List.mem_singleton.mp hbx]
    exact le_refl _
  | cons b bs ih =>
    intro bx hbx
    simp only [pickSmallest]
    have key := ih (if a.area ≤ b.area then a else b)
    rcases List.mem_cons.mp hbx with h | h
    · subst h
      calc (pickSmallest (if bx.area ≤ b.area then bx else b) bs).area
          ≤ (if bx.area ≤ b.area then bx else b).area :=
            key _ (List.mem_cons_self _ _)
        _ ≤ bx.area := by split_ifs with hab; exacts [le_refl _, (not_le.mp hab).le]
    · rcases List.mem_cons.mp h with h2 | h2
      · subst h2
        calc (pickSmallest (if a.area ≤ bx.area then a else bx) bs).area
            ≤ (if a.area ≤ bx.area then a else bx).area :=
              key _ (List.mem_cons_self _ _)
          _ ≤ bx.area := by split_ifs with hab; exacts [hab, le_refl _]
      · exact key bx (List.mem_cons_of_mem _ h2)

/-- C4 (amended).  For each text element whose center lies in at least one
container, the first container of minimal area is selected; a BoxOverflow
finding is produced iff the text box exceeds that container on some side by
more than the 3-unit tolerance, with magnitude the (rounded) maximum excess
and edge the first of right, left, bottom, top whose excess exceeds the
tolerance. -/
theorem box_overflow_spec (boxes : List RectBox) (t : TextNode) :
    (containersOf boxes t = [] → boxOverflowFor boxes t = none)
    ∧ (∀ c cs, containersOf boxes t = c :: cs →
        (pickSmallest c cs ∈ containersOf boxes t
          ∧ (∀ bx ∈ containersOf boxes t, (pickSmallest c cs).area ≤ bx.area)
          ∧ (OVERFLOW_TOL < maxExcess (pickSmallest c cs) t →
              boxOverflowFor boxes t = some
                { text := t.text, edge := overflowEdge (pickSmallest c cs) t,
                  overflowPx := jsRound (maxExcess (pickSmallest c cs) t),
                  textPos := posOf t })
          ∧ (maxExcess (pickSmallest c cs) t ≤ OVERFLOW_TOL →
              boxOverflowFor boxes t = none)))
    ∧ (∀ box : RectBox,
        (overflowEdge box t = Edge.right → OVERFLOW_TOL < t.r - box.r)
        ∧ (overflowEdge box t = Edge.left → OVERFLOW_TOL < box.x - t.x)
        ∧ (overflowEdge box t = Edge.bottom → OVERFLOW_TOL < t.b - box.b)
        ∧ (OVERFLOW_TOL < maxExcess box t → overflowEdge box t = Edge.top →
            OVERFLOW_TOL < box.y - t.y)) := by
  refine ⟨?_, ?_, ?_⟩
  · intro h
    simp only [boxOverflowFor, h]
  · intro c cs hc
    refine ⟨hc ▸ pickSmallest_mem c cs, fun bx hbx => pickSmallest_le c cs bx (hc ▸ hbx),
      ?_, ?_⟩
    · intro hover
      simp only [boxOverflowFor, hc]
      rw [if_pos hover]
    · intro hno
      simp only [boxOverflowFor, hc]
      rw [if_neg (not_lt.mpr hno)]
  · intro box
    unfold overflowEdge
    split_ifs with h1 h2 h3
    · refine ⟨fun _ => h1, ?_, ?_, fun _ => ?_⟩ <;> intro hc <;> exact absurd hc (by decide)
    · refine ⟨?_, fun _ => h2, ?_, fun _ => ?_⟩ <;> intro hc <;> exact absurd hc (by decide)
    · refine ⟨?_, ?_, fun _ => h3, fun _ => ?_⟩ <;> intro hc <;> exact absurd hc (by decide)
    · refine ⟨?_, ?_, ?_, fun hm _ => ?_⟩
      · intro hc; exact absurd hc (by decide)
      · intro hc; exact absurd hc (by decide)
      · intro hc; exact absurd hc (by decide)
      · rcases lt_max_iff.mp hm with hm2 | hm2
        · rcases lt_max_iff.mp hm2 with hm3 | hm3
          · rcases lt_max_iff.mp hm3 with hm4 | hm4
            · exact absurd hm4 h1
            · exact absurd hm4 h2
          · exact absurd hm3 h3
        · exact hm2

/-- The container of the overflow counterexample: a filled 30×30 rect. -/
def cexBox : RectBox := ⟨0, 0, 30, 30, 900⟩

/-- The `svg rect` element that yields `cexBox` under the container
collection rules. -/
def cexRect : SvgRectEl := ⟨0, 0, 30, 30, 30, 30, some ("red").data, false⟩

/-- The text element of the overflow counterexample: box `[-10, 10, 34, 15]`,
center `(12, 12.5)` inside the container; excess 4 on the right, 10 on the
left. -/
def cexText : TextNode := ⟨("t").data, -10, 10, 44, 5, 34, 15, false⟩

/-- C4 counterexample.  The finding reported for `cexText` against `cexBox`
has edge `right` (excess 4) even though the maximum excess 10 is attained
only on the `left` edge: the reported edge is not the edge of maximum
excess. -/
theorem box_overflow_edge_counterexample :
    toBox cexRect = some cexBox
    ∧ boxOverflowFor [cexBox] cexText =
        some { text := ("t").data, edge := Edge.right, overflowPx := 10,
               textPos := (-10, 10) }
    ∧ cexText.r - cexBox.r = 4 ∧ cexBox.x - cexText.x = 10
    ∧ cexText.b - cexBox.b = -15 ∧ cexBox.y - cexText.y = -10
    ∧ maxExcess cexBox cexText = 10
    ∧ Edge.right ≠ Edge.left := by
  refine ⟨by norm_num [toBox, cexRect, cexBox], ?_, by norm_num [cexText, cexBox],
    by norm_num [cexText, cexBox], by norm_num [cexText, cexBox],
    by norm_num [cexText, cexBox], by norm_num [maxExcess, cexText, cexBox], by simp⟩
  norm_num [boxOverflowFor, containersOf, pickSmallest, cexBox, cexText, maxExcess,
    overflowEdge, OVERFLOW_TOL, posOf, jsRound]

theorem box_overflow_spec_witness :
    boxOverflowFor [cexBox] cexText =
      some { text := ("t").data, edge := overflowEdge (pickSmallest cexBox []) cexText,
             overflowPx := jsRound (maxExcess (pickSmallest cexBox []) cexText),
             textPos := posOf cexText } :=
  ((box_overflow_spec [cexBox] cexText).2.1 cexBox []
      (by norm_num [containersOf, cexBox, cexText])).2.2.1
    (by norm_num [pickSmallest, maxExcess, cexBox, cexText, OVERFLOW_TOL, lt_max_iff])

/-! ## Claim theorems: unknown figure ids and dimension fallback -/

/-- C6 (amended).  A render/check request for an unknown figure id is
answered with HTTP 404; the job IS enqueued into the serial queue like any
other request (the unknown-id check is the first step of `_prepPage`, run
when the queued job starts), and it performs no worker-page operation. -/
theorem unknown_figure_notfound_spec (cache : FigCache) (figure : List Char)
    (h : (cache.find? fun p => p.1 == figure) = none) :
    handleFigureRequest cache (some figure) =
      { status := 404, enqueued := [figure], workerTouched := false } := by
  simp [handleFigureRequest, prepPage, h, SrvErr.status]

theorem unknown_figure_notfound_spec_witness :
    handleFigureRequest [] (some ("ghost").data) =
      { status := 404, enqueued := [("ghost").data], workerTouched := false } :=
  unknown_figure_notfound_spec [] (("ghost").data) rfl

/-- C6 counterexample.  A request for an unknown figure id does occupy the
Job Queue: handling it enqueues exactly one job, so the queue is not kept
free of jobs with unresolvable figure ids. -/
theorem unknown_figure_enqueued_counterexample :
    (handleFigureRequest [] (some ("ghost").data)).status = 404
    ∧ (handleFigureRequest [] (some ("ghost").data)).enqueued = [("ghost").data]
    ∧ (handleFigureRequest [] (some ("ghost").data)).enqueued ≠ [] := by
  refine ⟨rfl, rfl, ?_⟩
  intro h
  rw [show (handleFigureRequest [] (some ("ghost").data)).enqueued =
    [("ghost").data] from rfl] at h
  exact List.cons_ne_nil _ _ h

/-- C9.  When the produced document has no parseable `width="(\d+)"` or
`height="(\d+)"` attribute, preparing the page succeeds (no hard failure)
with the fallback size 900×600, which is exactly what the worker surface is
then sized to. -/
theorem missing_dimensions_fallback_spec (cache : FigCache) (figure svg : List Char)
    (hfind : (cache.find? fun p => p.1 == figure) = some (figure, svg))
    (hw : findNumAttr widthLit svg = none)
    (hh : findNumAttr heightLit svg = none) :
    prepPage cache figure = .ok { svgW := 900, svgH := 600, svgHtml := svg } := by
  simp [prepPage, hfind, svgWidthOf, svgHeightOf, hw, hh]

/-- A figure document with no parseable size attributes. -/
def exSvgNoDims : List Char := ("<svg><text>hi</text></svg>").data

theorem missing_dimensions_fallback_spec_witness :
    prepPage [(("fig").data, exSvgNoDims)] (("fig").data) =
      .ok { svgW := 900, svgH := 600, svgHtml := exSvgNoDims } :=
  missing_dimensions_fallback_spec [(("fig").data, exSvgNoDims)] (("fig").data)
    exSvgNoDims (by decide) (by decide) (by decide)

/-! ## Claim theorems: elements excluded from the check pass -/

/-- C10.  A text element whose trimmed text is empty, or whose box is at
most 1 unit wide or tall, is invisible to the whole check pass: inserting it
anywhere among the document's text elements changes neither the findings nor
the reported `textCount`/`checkedCount`. -/
theorem check_ignores_empty_or_tiny_text
    (textEls1 textEls2 : List SvgTextEl) (rectEls : List SvgRectEl) (W H : ℚ)
    (e : SvgTextEl)
    (he : jsTrim e.textContent = [] ∨ e.w ≤ 1 ∨ e.h ≤ 1) :
    analyze (textEls1 ++ e :: textEls2) rectEls W H =
      analyze (textEls1 ++ textEls2) rectEls W H := by
  have hkeep : keep (toNode e) = false := by
    rcases he with h | h | h
    · simp [keep, toNode, procText, h, collapseWs, collapseWsAux]
    · have hw : ¬(1 : ℚ) < e.w := not_lt.mpr h
      simp [keep, toNode, hw]
    · have hh : ¬(1 : ℚ) < e.h := not_lt.mpr h
      simp [keep, toNode, hh]
  have hsame : ((textEls1 ++ e :: textEls2).map toNode).filter keep =
      ((textEls1 ++ textEls2).map toNode).filter keep := by
    simp [List.filter_append, List.filter_cons, hkeep]
  unfold analyze
  rw [hsame]

/-- An element whose text is only whitespace. -/
def exBlank : SvgTextEl := ⟨(" \n ").data, 3, 3, 40, 12, 43, 15, false⟩

/-- A visible element for the exclusion witness. -/
def exVisible : SvgTextEl := ⟨("hello").data, 0, 0, 40, 12, 40, 12, false⟩

theorem check_ignores_empty_or_tiny_text_witness :
    analyze ([exVisible] ++ exBlank :: []) [] 100 100 =
      analyze ([exVisible] ++ []) [] 100 100 :=
  check_ignores_empty_or_tiny_text [exVisible] [] [] 100 100 exBlank
    (Or.inl (by decide))

/-! ## Claim theorems: batch rendering with hang detection -/

theorem catchBlock_errors (thresh hard : Nat) (st : BatchState) (fig : String)
    (elapsed : Nat) (msg : String) (hung : Bool) :
    (catchBlock thresh hard st fig elapsed msg hung).errors =
      st.errors ++ [(fig, msg)] := by
  unfold catchBlock
  split_ifs <;> rfl

theorem catchBlock_extends (thresh hard : Nat) (st : BatchState) (fig : String)
    (elapsed : Nat) (msg : String) (hung : Bool) :
    ∃ l n, (catchBlock thresh hard st fig elapsed msg hung).hangLog = st.hangLog ++ l
      ∧ (catchBlock thresh hard st fig elapsed msg hung).restarts = st.restarts + n := by
  unfold catchBlock
  split_ifs
  · exact ⟨[(fig, elapsed, msg)], 1, rfl, rfl⟩
  · exact ⟨[(fig, elapsed, msg)], 0, rfl, rfl⟩
  · exact ⟨[], 0, by simp, rfl⟩

/-- A hanging job's effect on the batch state: the caller gets the timeout
error, a hang record carrying the figure id and the measured duration
(`hard` ms, when the timer fired) is appended, and a restart is attempted. -/
theorem runJob_hang (thresh hard : Nat) (h0 : hard ≠ 0) (st : BatchState)
    (fig : String) :
    runJob thresh hard st fig .hangs = some
      { hangLog := st.hangLog ++ [(fig, hard, timeoutMsg hard)],
        restarts := st.restarts + 1,
        errors := st.errors ++ [(fig, timeoutMsg hard)] } := by
  simp only [runJob, requestTimed, h0, if_false]
  unfold catchBlock
  rw [if_pos (Or.inl (Nat.sub_le hard 100))]

theorem runJob_settles_ok (thresh hard : Nat) (h0 : hard ≠ 0) (st : BatchState)
    (fig : String) (d : Nat) (e : Option String) (hd : d < hard) :
    runJob thresh hard st fig (.settles d 200 e) =
      some (if thresh < d then
        { st with hangLog := st.hangLog ++ [(fig, d, "slow render (completed)")] }
        else st) := by
  unfold runJob
  rw [show requestTimed hard (ServerBehavior.settles d 200 e) = some (d, .ok (200, e))
    from by simp [requestTimed, h0, hd]]
  simp

theorem runJob_settles_err (thresh hard : Nat) (h0 : hard ≠ 0) (st : BatchState)
    (fig : String) (d s : Nat) (e : Option String) (hd : d < hard) (hs : s ≠ 200) :
    runJob thresh hard st fig (.settles d s e) =
      some (catchBlock thresh hard
        (if thresh < d then
          { st with hangLog := st.hangLog ++ [(fig, d, "slow render (completed)")] }
          else st)
        fig d (e.getD ("HTTP " ++ toString s)) (decide (thresh < d))) := by
  unfold runJob
  rw [show requestTimed hard (ServerBehavior.settles d s e) = some (d, .ok (s, e))
    from by simp [requestTimed, h0, hd]]
  simp [hs]

theorem runJob_settles_late (thresh hard : Nat) (h0 : hard ≠ 0) (st : BatchState)
    (fig : String) (d s : Nat) (e : Option String) (hd : ¬d < hard) :
    runJob thresh hard st fig (.settles d s e) =
      some (catchBlock thresh hard st fig hard (timeoutMsg hard) false) := by
  unfold runJob
  rw [show requestTimed hard (ServerBehavior.settles d s e) =
      some (hard, .error (timeoutMsg hard))
    from by simp [requestTimed, h0, hd]]

theorem runJob_isSome (thresh hard : Nat) (h0 : hard ≠ 0) (st : BatchState)
    (fig : String) (beh : ServerBehavior) :
    ∃ st2, runJob thresh hard st fig beh = some st2 := by
  cases beh with
  | hangs => exact ⟨_, runJob_hang thresh hard h0 st fig⟩
  | settles d s e =>
    by_cases hd : d < hard
    · by_cases hs : s = 200
      · subst hs
        exact ⟨_, runJob_settles_ok thresh hard h0 st fig d e hd⟩
      · exact ⟨_, runJob_settles_err thresh hard h0 st fig d s e hd hs⟩
    · exact ⟨_, runJob_settles_late thresh hard h0 st fig d s e hd⟩

theorem runJob_errors (thresh hard : Nat) (h0 : hard ≠ 0) (st st2 : BatchState)
    (fig : String) (beh : ServerBehavior)
    (h : runJob thresh hard st fig beh = some st2) :
    st2.errors = st.errors ++
      (if jobFails hard beh then [(fig, jobErrMsg hard beh)] else []) := by
  cases beh with
  | hangs =>
    rw [runJob_hang thresh hard h0 st fig] at h
    cases h
    simp [jobFails, jobErrMsg]
  | settles d s e =>
    by_cases hd : d < hard
    · by_cases hs : s = 200
      · subst hs
        rw [runJob_settles_ok thresh hard h0 st fig d e hd] at h
        cases h
        have hfail : jobFails hard (ServerBehavior.settles d 200 e) = false := by
          simp [jobFails, Nat.not_le.mpr hd]
        rw [hfail]
        simp only [Bool.false_eq_true, if_false, List.append_nil]
        split_ifs <;> rfl
      · rw [runJob_settles_err thresh hard h0 st fig d s e hd hs] at h
        cases h
        rw [catchBlock_errors]
        have h1 : (if thresh < d then
            ({ st with hangLog :=
                st.hangLog ++ [(fig, d, "slow render (completed)")] } : BatchState)
            else st).errors = st.errors := by
          split_ifs <;> rfl
        rw [h1]
        simp [jobFails, jobErrMsg, Nat.not_le.mpr hd, hs]
    · rw [runJob_settles_late thresh hard h0 st fig d s e hd] at h
      cases h
      rw [catchBlock_errors]
      simp [jobFails, jobErrMsg, h0, Nat.le_of_not_lt hd]

theorem runJob_extends (thresh hard : Nat) (h0 : hard ≠ 0) (st st2 : BatchState)
    (fig : String) (beh : ServerBehavior)
    (h : runJob thresh hard st fig beh = some st2) :
    ∃ l n, st2.hangLog = st.hangLog ++ l ∧ st2.restarts = st.restarts + n := by
  cases beh with
  | hangs =>
    rw [runJob_hang thresh hard h0 st fig] at h
    cases h
    exact ⟨[(fig, hard, timeoutMsg hard)], 1, rfl, rfl⟩
  | settles d s e =>
    by_cases hd : d < hard
    · by_cases hs : s = 200
      · subst hs
        rw [runJob_settles_ok thresh hard h0 st fig d e hd] at h
        cases h
        by_cases ht : thresh < d
        · rw [if_pos ht]
          exact ⟨[(fig, d, "slow render (completed)")], 0, rfl, rfl⟩
        · rw [if_neg ht]
          exact ⟨[], 0, by simp, rfl⟩
      · rw [runJob_settles_err thresh hard h0 st fig d s e hd hs] at h
        cases h
        by_cases ht : thresh < d
        · rw [if_pos ht]
          obtain ⟨l, n, hl, hn⟩ := catchBlock_extends thresh hard
            { st with hangLog := st.hangLog ++ [(fig, d, "slow render (completed)")] }
            fig d (e.getD ("HTTP " ++ toString s)) (decide (thresh < d))
          refine ⟨(fig, d, "slow render (completed)") :: l, n, ?_, hn⟩
          rw [hl]
          simp
        · rw [if_neg ht]
          obtain ⟨l, n, hl, hn⟩ := catchBlock_extends thresh hard st
            fig d (e.getD ("HTTP " ++ toString s)) (decide (thresh < d))
          exact ⟨l, n, hl, hn⟩
    · rw [runJob_settles_late thresh hard h0 st fig d s e hd] at h
      cases h
      obtain ⟨l, n, hl, hn⟩ := catchBlock_extends thresh hard st fig hard
        (timeoutMsg hard) false
      exact ⟨l, n, hl, hn⟩

theorem runBatchAux_append (thresh hard : Nat) (st : BatchState)
    (l1 l2 : List (String × ServerBehavior)) :
    runBatchAux thresh hard st (l1 ++ l2) =
      (runBatchAux thresh hard st l1).bind
        (fun st1 => runBatchAux thresh hard st1 l2) := by
  induction l1 generalizing st with
  | nil => rfl
  | cons j rest ih =>
    obtain ⟨fig, beh⟩ := j
    simp only [List.cons_append, runBatchAux]
    cases runJob thresh hard st fig beh with
    | none => rfl
    | some st1 => exact ih st1

theorem runBatchAux_isSome (thresh hard : Nat) (h0 : hard ≠ 0) (st : BatchState)
    (jobs : List (String × ServerBehavior)) :
    ∃ st2, runBatchAux thresh hard st jobs = some st2 := by
  induction jobs generalizing st with
  | nil => exact ⟨st, rfl⟩
  | cons j rest ih =>
    obtain ⟨fig, beh⟩ := j
    obtain ⟨st1, h1⟩ := runJob_isSome thresh hard h0 st fig beh
    obtain ⟨st2, h2⟩ := ih st1
    exact ⟨st2, by simp only [runBatchAux, h1, h2]⟩

theorem runBatchAux_errors (thresh hard : Nat) (h0 : hard ≠ 0)
    (jobs : List (String × ServerBehavior)) (st st2 : BatchState)
    (h : runBatchAux thresh hard st jobs = some st2) :
    st2.errors = st.errors ++
      (jobs.filter fun j => jobFails hard j.2).map
        (fun j => (j.1, jobErrMsg hard j.2)) := by
  induction jobs generalizing st with
  | nil =>
    cases h
    simp
  | cons j rest ih =>
    obtain ⟨fig, beh⟩ := j
    simp only [runBatchAux] at h
    cases hj : runJob thresh hard st fig beh with
    | none => rw [hj] at h; cases h
    | some st1 =>
      rw [hj] at h
      rw [ih st1 h, runJob_errors thresh hard h0 st st1 fig beh hj]
      simp only [List.filter_cons]
      by_cases hf : jobFails hard beh
      · simp [hf]
      · simp [hf]

theorem runBatchAux_extends (thresh hard : Nat) (h0 : hard ≠ 0)
    (jobs : List (String × ServerBehavior)) (st st2 : BatchState)
    (h : runBatchAux thresh hard st jobs = some st2) :
    ∃ l n, st2.hangLog = st.hangLog ++ l ∧ st2.restarts = st.restarts + n := by
  induction jobs generalizing st with
  | nil =>
    cases h
    exact ⟨[], 0, by simp, rfl⟩
  | cons j rest ih =>
    obtain ⟨fig, beh⟩ := j
    simp only [runBatchAux] at h
    cases hj : runJob thresh hard st fig beh with
    | none => rw [hj] at h; cases h
    | some st1 =>
      rw [hj] at h
      obtain ⟨l1, n1, hl1, hn1⟩ := runJob_extends thresh hard h0 st st1 fig beh hj
      obtain ⟨l2, n2, hl2, hn2⟩ := ih st1 h
      exact ⟨l1 ++ l2, n1 + n2, by rw [hl2, hl1, List.append_assoc],
        by rw [hn2, hn1, Nat.add_assoc]⟩

/-- C7.  In a batch, a job whose request never settles is failed by the hard
timeout: its caller's error is the timeout error raised when the `hard`-ms
timer fires, a hang record with the figure id and the measured duration is
appended to the hang log, a server restart is attempted, and the batch still
processes every job — the error list is exactly the list of failing jobs, in
order, and the returned counters cover the whole batch. -/
theorem batch_hang_timeout_spec (thresh hard : Nat) (hpos : 0 < hard)
    (jobs : List (String × ServerBehavior)) (k : Nat) (hk : k < jobs.length)
    (hhang : (jobs.get ⟨k, hk⟩).2 = .hangs) :
    ∃ st ok total, runBatch thresh hard jobs = some (st, ok, total)
    ∧ ((jobs.get ⟨k, hk⟩).1, hard, timeoutMsg hard) ∈ st.hangLog
    ∧ ((jobs.get ⟨k, hk⟩).1, timeoutMsg hard) ∈ st.errors
    ∧ 0 < st.restarts
    ∧ st.errors = (jobs.filter fun j => jobFails hard j.2).map
        (fun j => (j.1, jobErrMsg hard j.2))
    ∧ total = jobs.length
    ∧ ok = jobs.length - st.errors.length := by
  have h0 : hard ≠ 0 := Nat.pos_iff_ne_zero.mp hpos
  obtain ⟨stAll, hAll⟩ := runBatchAux_isSome thresh hard h0 ⟨[], 0, []⟩ jobs
  refine ⟨stAll, jobs.length - stAll.errors.length, jobs.length, ?_, ?_, ?_, ?_, ?_, rfl, rfl⟩
  · rw [runBatch, hAll]
    rfl
  · -- decompose the batch around job k
    have hsplit : jobs = jobs.take k ++ jobs.get ⟨k, hk⟩ :: jobs.drop (k + 1) := by
      conv_lhs => rw [← List.take_append_drop k jobs]
      rw [List.drop_eq_getElem_cons hk]
      simp
    rw [hsplit, runBatchAux_append] at hAll
    cases h1 : runBatchAux thresh hard ⟨[], 0, []⟩ (jobs.take k) with
    | none => rw [h1] at hAll; cases hAll
    | some st1 =>
      rw [h1, Option.some_bind] at hAll
      simp only [runBatchAux] at hAll
      rw [show (jobs.get ⟨k, hk⟩ : String × ServerBehavior) =
        ((jobs.get ⟨k, hk⟩).1, (jobs.get ⟨k, hk⟩).2) from rfl, hhang,
        runJob_hang thresh hard h0 st1 (jobs.get ⟨k, hk⟩).1] at hAll
      obtain ⟨l, n, hl, _⟩ := runBatchAux_extends thresh hard h0 _ _ stAll hAll
      rw [hl]
      simp
  · have hmem : (jobs.get ⟨k, hk⟩) ∈ jobs := List.get_mem jobs k hk
    have hfmem : (jobs.get ⟨k, hk⟩) ∈ jobs.filter fun j => jobFails hard j.2 := by
      rw [List.mem_filter]
      exact ⟨hmem, by rw [hhang]; rfl⟩
    have herr := runBatchAux_errors thresh hard h0 jobs _ stAll hAll
    rw [herr]
    simp only [List.nil_append]
    have himg : ((jobs.get ⟨k, hk⟩).1, timeoutMsg hard) =
        (fun j : String × ServerBehavior => (j.1, jobErrMsg hard j.2))
          (jobs.get ⟨k, hk⟩) := by
      simp only [hhang, jobErrMsg]
    rw [himg]
    exact List.mem_map_of_mem _ hfmem
  · have hsplit : jobs = jobs.take k ++ jobs.get ⟨k, hk⟩ :: jobs.drop (k + 1) := by
      conv_lhs => rw [← List.take_append_drop k jobs]
      rw [List.drop_eq_getElem_cons hk]
      simp
    rw [hsplit, runBatchAux_append] at hAll
    cases h1 : runBatchAux thresh hard ⟨[], 0, []⟩ (jobs.take k) with
    | none => rw [h1] at hAll; cases hAll
    | some st1 =>
      rw [h1, Option.some_bind] at hAll
      simp only [runBatchAux] at hAll
      rw [show (jobs.get ⟨k, hk⟩ : String × ServerBehavior) =
        ((jobs.get ⟨k, hk⟩).1, (jobs.get ⟨k, hk⟩).2) from rfl, hhang,
        runJob_hang thresh hard h0 st1 (jobs.get ⟨k, hk⟩).1] at hAll
      obtain ⟨l, n, _, hn⟩ := runBatchAux_extends thresh hard h0 _ _ stAll hAll
      rw [hn]
      simp only [BatchState.restarts]
      omega
  · have := runBatchAux_errors thresh hard h0 jobs _ stAll hAll
    rw [this]
    simp

/-- Jobs for the batch witness: job 1 hangs. -/
def exJobs : List (String × ServerBehavior) :=
  [("a", .settles 100 200 none), ("b", .hangs), ("c", .settles 50 500 (some "boom"))]

/-! ## Claim theorems: PDF date normalisation -/

/-- C8.  On well-formed PDF byte strings (date fields with `)`-free /
`<`-free values, no date literal hidden inside other content),
`normalizePdfDates` rewrites every /CreationDate, /ModDate,
xmp:CreateDate, xmp:ModifyDate and xmp:MetadataDate field to the fixed
sentinel; consequently it is idempotent, and two inputs that differ only in
the whitespace/values of those fields (same token skeleton) normalize to
byte-identical outputs. -/
theorem normalize_pdf_dates_spec (ts ts2 : List PdfTok)
    (hwf : wfDoc ts = true) (hwf2 : wfDoc ts2 = true)
    (hshape : ts.map normTok = ts2.map normTok) :
    normalizePdfDates (render ts) = render (ts.map normTok)
    ∧ normalizePdfDates (normalizePdfDates (render ts)) =
        normalizePdfDates (render ts)
    ∧ normalizePdfDates (render ts) = normalizePdfDates (render ts2) := by
  refine ⟨normalize_render ts hwf, ?_, ?_⟩
  · rw [normalize_render ts hwf]
    have hwfn : wfDoc (ts.map normTok) = true :=
      wfDoc_map normTok wfTok_normTok isPlain_normTok ts hwf
    rw [normalize_render _ hwfn, List.map_map]
    rw [show (normTok ∘ normTok) = normTok from
      funext fun t => by cases t <;> rfl]
  · rw [normalize_render ts hwf, normalize_render ts2 hwf2, hshape]

/-- A structured PDF document for the normalization witness. -/
def exDoc : List PdfTok :=
  [.plain ("%PDF-1.4 1 0 obj ").data,
   .fCre [' '] ("D:20240505120000+02").data,
   .plain (" endobj ").data,
   .xMod ("2024-05-05T10:00:00Z").data,
   .fMod [] ("D:20231111090000Z").data]

/-- The same document with different timestamps and field spacing. -/
def exDoc2 : List PdfTok :=
  [.plain ("%PDF-1.4 1 0 obj ").data,
   .fCre [] ("D:19990101000000Z").data,
   .plain (" endobj ").data,
   .xMod ("yesterday at noon").data,
   .fMod [' '] ("D:20000229").data]

theorem normalize_pdf_dates_spec_witness :
    normalizePdfDates (render exDoc) = render (exDoc.map normTok)
    ∧ normalizePdfDates (normalizePdfDates (render exDoc)) =
        normalizePdfDates (render exDoc)
    ∧ normalizePdfDates (render exDoc) = normalizePdfDates (render exDoc2) :=
  normalize_pdf_dates_spec exDoc exDoc2 (by decide) (by decide) (by decide)

theorem batch_hang_timeout_spec_witness :
    ∃ st ok total, runBatch 5000 30000 exJobs = some (st, ok, total)
    ∧ ((exJobs.get ⟨1, by norm_num [exJobs]⟩).1, 30000, timeoutMsg 30000) ∈ st.hangLog
    ∧ ((exJobs.get ⟨1, by norm_num [exJobs]⟩).1, timeoutMsg 30000) ∈ st.errors
    ∧ 0 < st.restarts
    ∧ st.errors = (exJobs.filter fun j => jobFails 30000 j.2).map
        (fun j => (j.1, jobErrMsg 30000 j.2))
    ∧ total = exJobs.length
    ∧ ok = exJobs.length - st.errors.length :=
  batch_hang_timeout_spec 5000 30000 (by norm_num) exJobs 1
    (by norm_num [exJobs]) rfl

end D3Figurer
